import Mathlib

/-!
Verification of the preferred-value solver core of the synth-calculators
repository: the E6 series generator, the Sallen-Key circuit equations and
resistor solver (`src/lib/sklp/solve.ts`), the deterministic candidate
comparator, and the expanding-decade capacitor search of the dual-gang
potentiometer variant (`src/lib/sklp_equal_pot/solve.ts`).

Conventions of the embedding:
* JavaScript `number` arithmetic is idealized as exact arithmetic: the
  discrete layer (E6 values, decade bookkeeping) is embedded over `ℚ`
  so that it stays executable, and the analytic layer (square roots, pi,
  logarithms) over `ℝ`.
* A JavaScript function that can return `NaN` is embedded as returning
  `Option` with `none` for `NaN`; a function that can return an `Error`
  value is embedded as returning `Except` with an error enumeration in
  place of the human-readable message.
* `Number.EPSILON` is the exact rational `2 ^ (-52)`.
-/

/-- `E6_SERIES` from `src/lib/series/e6.ts`: the six E6 mantissas. -/
def E6_SERIES : List ℚ := [1.0, 1.5, 2.2, 3.3, 4.7, 6.8]

/-- `Number.EPSILON` of JavaScript, exactly `2 ^ (-52)`. -/
def numberEPSILON : ℚ := 1 / 4503599627370496

namespace Sklp

/-- `MIN_CAPACITANCE_F` from `src/lib/sklp/solve.ts` (100 pF). -/
def MIN_CAPACITANCE_F : ℚ := 100e-12

/-- `MAX_CAPACITANCE_F` from `src/lib/sklp/solve.ts` (10 uF). -/
def MAX_CAPACITANCE_F : ℚ := 10e-6

/-- The decade exponents `-12 .. 6` enumerated by `generateE6Capacitors`
(the source's `for` loop from `-12` to `6` inclusive). -/
def decadeExponents : List ℤ :=
  [-12, -11, -10, -9, -8, -7, -6, -5, -4, -3, -2, -1, 0, 1, 2, 3, 4, 5, 6]

/-- `candidate.toPrecision(12)` followed by `parseFloat`, idealized over `ℚ`:
round to 12 significant decimal digits (identity on non-positive input,
which the source never feeds it). -/
def round12 (x : ℚ) : ℚ :=
  if x ≤ 0 then x
  else ((round (x / (10 : ℚ) ^ (Int.log 10 x - 11)) : ℤ) : ℚ) *
    (10 : ℚ) ^ (Int.log 10 x - 11)

/-- The error outcomes of the sklp module, in place of the thrown/returned
`Error` messages of the source. -/
inductive SklpError where
  | invalidRange
  | invalidFc
  | invalidQ
  | invalidCap
  | cannotRealizeQ
  | imaginaryResistors
  | nonPositiveResistors
  | noFeasiblePair
deriving DecidableEq, Repr

/-- The loop body of `generateE6Capacitors` from `src/lib/sklp/solve.ts`:
enumerate every E6 mantissa across decades `10^-12 .. 10^6`, keep the values
inside `[min - Number.EPSILON, max + Number.EPSILON]`, and round each kept
value to 12 significant digits, in source iteration order. -/
def e6CandidatesIn (mn mx : ℚ) : List ℚ :=
  decadeExponents.flatMap fun e =>
    E6_SERIES.filterMap fun m =>
      let candidate := m * (10 : ℚ) ^ e
      if mn - numberEPSILON ≤ candidate ∧ candidate ≤ mx + numberEPSILON then
        some (round12 candidate)
      else
        none

/-- `generateE6Capacitors` from `src/lib/sklp/solve.ts`: validate the range
(a malformed range is the thrown `Invalid capacitor range provided.` error),
enumerate and filter the candidates, deduplicate (the `Set`), and sort
ascending (the `Array.sort`). -/
def generateE6Capacitors (mn mx : ℚ) : Except SklpError (List ℚ) :=
  if ¬(0 < mn ∧ mn ≤ mx) then .error .invalidRange
  else .ok (List.insertionSort (· ≤ ·) (e6CandidatesIn mn mx).dedup)

end Sklp

/-! ### Facts about `round12` on preferred values -/

namespace Sklp

/-- Uniqueness characterisation of `Int.log 10` on positive rationals. -/
theorem int_log10_eq (x : ℚ) (k : ℤ) (h1 : (10 : ℚ) ^ k ≤ x)
    (h2 : x < (10 : ℚ) ^ (k + 1)) : Int.log 10 x = k := by
  have hx : 0 < x := lt_of_lt_of_le (by positivity) h1
  by_contra hne
  rcases lt_or_gt_of_ne hne with hlt | hgt
  · have hle : (10 : ℚ) ^ (Int.log 10 x + 1) ≤ (10 : ℚ) ^ k :=
      zpow_le_zpow_right₀ (by norm_num) (by omega)
    have hb := Int.lt_zpow_succ_log_self (b := 10) (by norm_num) x
    push_cast at hb
    linarith
  · have hle : (10 : ℚ) ^ (k + 1) ≤ (10 : ℚ) ^ (Int.log 10 x) :=
      zpow_le_zpow_right₀ (by norm_num) (by omega)
    have hb := Int.zpow_log_le_self (b := 10) (by norm_num) hx
    push_cast at hb
    linarith

/-- Rounding to 12 significant digits leaves a value `m * 10^e` with a
one-decade mantissa of at most 12 digits unchanged. -/
theorem round12_of_mantissa (m : ℚ) (e z : ℤ) (h1 : 1 ≤ m) (h10 : m < 10)
    (hz : (z : ℚ) = m * (10 : ℚ) ^ (11 : ℤ)) :
    round12 (m * (10 : ℚ) ^ e) = m * (10 : ℚ) ^ e := by
  have hx : 0 < m * (10 : ℚ) ^ e := by positivity
  have hlog : Int.log 10 (m * (10 : ℚ) ^ e) = e := by
    apply int_log10_eq
    · calc (10 : ℚ) ^ e = 1 * 10 ^ e := by ring
        _ ≤ m * 10 ^ e := by
          exact mul_le_mul_of_nonneg_right h1 (by positivity)
    · calc m * (10 : ℚ) ^ e < 10 * 10 ^ e :=
          mul_lt_mul_of_pos_right h10 (by positivity)
        _ = 10 ^ (e + 1) := by
          rw [zpow_add₀ (by norm_num : (10 : ℚ) ≠ 0)]; ring
  unfold round12
  rw [if_neg (not_le.mpr hx), hlog]
  have hpow : (10 : ℚ) ^ (e - 11) ≠ 0 := by positivity
  have harg : m * (10 : ℚ) ^ e / (10 : ℚ) ^ (e - 11) = (z : ℚ) := by
    rw [hz, mul_div_assoc, ← zpow_sub₀ (by norm_num : (10 : ℚ) ≠ 0)]
    norm_num
  rw [harg, round_intCast, hz, mul_assoc, ← zpow_add₀ (by norm_num : (10 : ℚ) ≠ 0)]
  norm_num

/-- Rounding to 12 significant digits is the identity on every enumerated E6
candidate value. -/
theorem round12_e6 (m : ℚ) (hm : m ∈ E6_SERIES) (e : ℤ) :
    round12 (m * (10 : ℚ) ^ e) = m * (10 : ℚ) ^ e := by
  fin_cases hm
  · exact round12_of_mantissa _ e 100000000000 (by norm_num) (by norm_num) (by norm_num)
  · exact round12_of_mantissa _ e 150000000000 (by norm_num) (by norm_num) (by norm_num)
  · exact round12_of_mantissa _ e 220000000000 (by norm_num) (by norm_num) (by norm_num)
  · exact round12_of_mantissa _ e 330000000000 (by norm_num) (by norm_num) (by norm_num)
  · exact round12_of_mantissa _ e 470000000000 (by norm_num) (by norm_num) (by norm_num)
  · exact round12_of_mantissa _ e 680000000000 (by norm_num) (by norm_num) (by norm_num)

end Sklp

namespace Sklp

/-- C7: for every finite `min > 0` and `max ≥ min`, `generateE6Capacitors`
returns a strictly increasing (hence duplicate-free) list every element of
which lies within `[min - Number.EPSILON, max + Number.EPSILON]`; for a
non-positive `min` or `max < min` it fails with the invalid-range error. -/
theorem generateE6Capacitors_strictSorted_inRange (mn mx : ℚ) :
    (0 < mn ∧ mn ≤ mx →
      ∃ l, generateE6Capacitors mn mx = .ok l ∧ l.Sorted (· < ·) ∧
        ∀ v ∈ l, mn - numberEPSILON ≤ v ∧ v ≤ mx + numberEPSILON) ∧
    (¬(0 < mn ∧ mn ≤ mx) →
      generateE6Capacitors mn mx = .error .invalidRange) := by
  constructor
  · intro hv
    refine ⟨List.insertionSort (· ≤ ·) (e6CandidatesIn mn mx).dedup, ?_, ?_, ?_⟩
    · rw [generateE6Capacitors, if_neg (not_not_intro hv)]
    · exact List.Sorted.lt_of_le (List.sorted_insertionSort _ _)
        (((List.perm_insertionSort _ _).nodup_iff).mpr (List.nodup_dedup _))
    · intro v hvmem
      have hv2 : v ∈ (e6CandidatesIn mn mx).dedup :=
        ((List.perm_insertionSort _ _).mem_iff).mp hvmem
      have hv3 : v ∈ e6CandidatesIn mn mx := List.mem_dedup.mp hv2
      rw [e6CandidatesIn] at hv3
      simp only [List.mem_flatMap, List.mem_filterMap] at hv3
      obtain ⟨e, _, m, hm, hcond⟩ := hv3
      split_ifs at hcond with hrange
      · obtain rfl : round12 (m * (10 : ℚ) ^ e) = v := Option.some_injective _ hcond
        rw [round12_e6 m hm e]
        exact hrange
  · intro hinv
    rw [generateE6Capacitors, if_pos hinv]

end Sklp

namespace Sklp

/-- Bounds satisfied by every E6 mantissa. -/
theorem e6_mantissa_bounds (m : ℚ) (hm : m ∈ E6_SERIES) : 1 ≤ m ∧ m ≤ 34 / 5 := by
  fin_cases hm <;> norm_num

/-- Membership in the enumerated decade exponents is exactly `-12 ≤ e ≤ 6`. -/
theorem mem_decadeExponents (e : ℤ) : e ∈ decadeExponents ↔ -12 ≤ e ∧ e ≤ 6 := by
  simp only [decadeExponents, List.mem_cons, List.not_mem_nil, or_false]
  omega

/-- C8 (amended to the enumerated decade range): every E6 value `m * 10^k`
with `-12 ≤ k ≤ 6` that lies inside a valid window `[min, max]` appears in
the output of `generateE6Capacitors min max`. -/
theorem generateE6Capacitors_covers (mn mx m : ℚ) (k : ℤ)
    (h0 : 0 < mn) (hmm : mn ≤ mx) (hm : m ∈ E6_SERIES)
    (hk1 : -12 ≤ k) (hk2 : k ≤ 6)
    (hlo : mn ≤ m * (10 : ℚ) ^ k) (hhi : m * (10 : ℚ) ^ k ≤ mx) :
    ∃ l, generateE6Capacitors mn mx = .ok l ∧ m * (10 : ℚ) ^ k ∈ l := by
  refine ⟨List.insertionSort (· ≤ ·) (e6CandidatesIn mn mx).dedup, ?_, ?_⟩
  · rw [generateE6Capacitors, if_neg (not_not_intro ⟨h0, hmm⟩)]
  · have heps : (0 : ℚ) < numberEPSILON := by norm_num [numberEPSILON]
    have hmem : m * (10 : ℚ) ^ k ∈ e6CandidatesIn mn mx := by
      rw [e6CandidatesIn]
      simp only [List.mem_flatMap, List.mem_filterMap]
      refine ⟨k, (mem_decadeExponents k).mpr ⟨hk1, hk2⟩, m, hm, ?_⟩
      rw [if_pos ⟨by linarith, by linarith⟩, round12_e6 m hm k]
    exact ((List.perm_insertionSort _ _).mem_iff).mpr (List.mem_dedup.mpr hmem)

/-- C8 counterexample: the decade range enumerated by `generateE6Capacitors`
is fixed at `10^-12 .. 10^6` and does not adapt to the requested window, so
the E6 value `1 * 10^8` inside the valid window `[10^8, 10^8]` is absent from
the output (the output is empty). -/
theorem generateE6Capacitors_missing_value :
    (0 : ℚ) < 10 ^ 8 ∧ (10 ^ 8 : ℚ) ≤ 10 ^ 8 ∧ (1 : ℚ) ∈ E6_SERIES ∧
    (10 ^ 8 : ℚ) ≤ 1 * (10 : ℚ) ^ (8 : ℤ) ∧ 1 * (10 : ℚ) ^ (8 : ℤ) ≤ 10 ^ 8 ∧
    generateE6Capacitors (10 ^ 8) (10 ^ 8) = .ok [] := by
  refine ⟨by norm_num, le_refl _, by norm_num [E6_SERIES], by norm_num, by norm_num, ?_⟩
  rw [generateE6Capacitors, if_neg (not_not_intro ⟨by norm_num, le_refl _⟩)]
  have hnil : e6CandidatesIn (10 ^ 8) (10 ^ 8) = [] := by
    rw [e6CandidatesIn]
    apply List.flatMap_eq_nil_iff.mpr
    intro e he
    apply List.filterMap_eq_nil_iff.mpr
    intro m hm
    have hmb := e6_mantissa_bounds m hm
    have heb : e ≤ 6 := ((mem_decadeExponents e).mp he).2
    have hzb : (10 : ℚ) ^ e ≤ (10 : ℚ) ^ (6 : ℤ) :=
      zpow_le_zpow_right₀ (by norm_num) heb
    have hzp : (0 : ℚ) < (10 : ℚ) ^ e := by positivity
    have hsmall : m * (10 : ℚ) ^ e ≤ (34 / 5) * (10 : ℚ) ^ (6 : ℤ) := by
      apply mul_le_mul hmb.2 hzb (le_of_lt hzp) (by norm_num)
    rw [if_neg]
    intro hcond
    have : (10 ^ 8 : ℚ) - numberEPSILON ≤ (34 / 5) * (10 : ℚ) ^ (6 : ℤ) :=
      le_trans hcond.1 hsmall
    norm_num [numberEPSILON] at this
  rw [hnil]
  rfl

end Sklp

namespace Sklp

/-- Witness for C7 at the solver's default window `[100 pF, 10 uF]`. -/
theorem generateE6Capacitors_strictSorted_inRange_witness :
    ∃ l, generateE6Capacitors MIN_CAPACITANCE_F MAX_CAPACITANCE_F = .ok l ∧
      l.Sorted (· < ·) ∧
      ∀ v ∈ l, MIN_CAPACITANCE_F - numberEPSILON ≤ v ∧
        v ≤ MAX_CAPACITANCE_F + numberEPSILON :=
  (generateE6Capacitors_strictSorted_inRange MIN_CAPACITANCE_F MAX_CAPACITANCE_F).1
    (by norm_num [MIN_CAPACITANCE_F, MAX_CAPACITANCE_F])

/-- Witness for C8: `2.2 nF` appears in the default window's E6 list. -/
theorem generateE6Capacitors_covers_witness :
    ∃ l, generateE6Capacitors MIN_CAPACITANCE_F MAX_CAPACITANCE_F = .ok l ∧
      (2.2 : ℚ) * (10 : ℚ) ^ (-9 : ℤ) ∈ l :=
  generateE6Capacitors_covers MIN_CAPACITANCE_F MAX_CAPACITANCE_F 2.2 (-9)
    (by norm_num [MIN_CAPACITANCE_F]) (by norm_num [MIN_CAPACITANCE_F, MAX_CAPACITANCE_F])
    (by norm_num [E6_SERIES]) (by norm_num) (by norm_num)
    (by norm_num [MIN_CAPACITANCE_F]) (by norm_num [MAX_CAPACITANCE_F])

end Sklp

/-! ### The sklp circuit equations and resistor solver, over `ℝ` -/

namespace Sklp

/-- `RATIO_TOLERANCE` from `src/lib/sklp/solve.ts`. -/
noncomputable def RATIO_TOLERANCE : ℝ := 1e-6

/-- `DISCRIMINANT_TOLERANCE` from `src/lib/sklp/solve.ts`. -/
noncomputable def DISCRIMINANT_TOLERANCE : ℝ := 1e-9

/-- `COMPARISON_TOLERANCE` from `src/lib/sklp/solve.ts`. -/
noncomputable def COMPARISON_TOLERANCE : ℝ := 1e-9

/-- `Number.EPSILON` as a real number. -/
noncomputable def numberEpsilonReal : ℝ := 1 / 4503599627370496

/-- `MIN_RESISTANCE_OHMS` from `src/lib/sklp/solve.ts`. -/
noncomputable def MIN_RESISTANCE_OHMS : ℝ := 100

/-- `MAX_RESISTANCE_OHMS` from `src/lib/sklp/solve.ts`. -/
noncomputable def MAX_RESISTANCE_OHMS : ℝ := 10000000

/-- `computeNaturalFrequencyHz` from `src/lib/sklp/solve.ts`:
`f0 = (1 / sqrt(r1 r2 c1 c2)) / (2 pi)`, `NaN` (here `none`) when the
product is non-positive (or non-finite in the source). -/
noncomputable def computeNaturalFrequencyHz (r1 r2 c1 c2 : ℝ) : Option ℝ :=
  if r1 * r2 * c1 * c2 ≤ 0 then none
  else some (1 / Real.sqrt (r1 * r2 * c1 * c2) / (2 * Real.pi))

/-- `computeQualityFactor` from `src/lib/sklp/solve.ts`:
`Q = sqrt(r1 r2 c1 c2) / (c2 (r1 + r2))`, `NaN` (here `none`) when the
square root is non-positive (which covers the `NaN`-from-negative-radicand
case of the source) or the denominator is non-positive. -/
noncomputable def computeQualityFactor (r1 r2 c1 c2 : ℝ) : Option ℝ :=
  if Real.sqrt (r1 * r2 * c1 * c2) ≤ 0 ∨ c2 * (r1 + r2) ≤ 0 then none
  else some (Real.sqrt (r1 * r2 * c1 * c2) / (c2 * (r1 + r2)))

/-- A resistor pair as returned by `solveResistorsForCapacitors`. -/
structure ResistorPair where
  r1 : ℝ
  r2 : ℝ

/-- `omega0 = 2 pi fc` of `solveResistorsForCapacitors`. -/
noncomputable def omega0 (fcHz : ℝ) : ℝ := 2 * Real.pi * fcHz

/-- `product = r1*r2 = 1/(omega0^2 c1 c2)` of `solveResistorsForCapacitors`. -/
noncomputable def rProduct (fcHz c1 c2 : ℝ) : ℝ :=
  1 / (omega0 fcHz * omega0 fcHz * c1 * c2)

/-- `sum = r1+r2 = 1/(omega0 Q c2)` of `solveResistorsForCapacitors`. -/
noncomputable def rSum (fcHz Q c2 : ℝ) : ℝ := 1 / (omega0 fcHz * Q * c2)

/-- `discriminant = sum^2 - 4 product` of `solveResistorsForCapacitors`. -/
noncomputable def discriminant (fcHz Q c1 c2 : ℝ) : ℝ :=
  rSum fcHz Q c2 * rSum fcHz Q c2 - 4 * rProduct fcHz c1 c2

/-- `solveResistorsForCapacitors` from `src/lib/sklp/solve.ts`: validate the
inputs, fail fast when `c1 + Number.EPSILON < 4 Q^2 c2`, fail when the
discriminant is below `-DISCRIMINANT_TOLERANCE`, otherwise clamp the
discriminant at zero, solve the quadratic, and return the pair with the
smaller resistor first. -/
noncomputable def solveResistorsForCapacitors (fcHz Q c1 c2 : ℝ) :
    Except SklpError ResistorPair :=
  if fcHz ≤ 0 then .error .invalidFc
  else if Q ≤ 0 then .error .invalidQ
  else if c1 ≤ 0 ∨ c2 ≤ 0 then .error .invalidCap
  else if c1 + numberEpsilonReal < 4 * Q * Q * c2 then .error .cannotRealizeQ
  else if discriminant fcHz Q c1 c2 < -DISCRIMINANT_TOLERANCE then
    .error .imaginaryResistors
  else
    let sqrtTerm := Real.sqrt (max 0 (discriminant fcHz Q c1 c2))
    let rOne := (rSum fcHz Q c2 - sqrtTerm) / 2
    let rTwo := (rSum fcHz Q c2 + sqrtTerm) / 2
    if rOne ≤ 0 ∨ rTwo ≤ 0 then .error .nonPositiveResistors
    else if rOne ≤ rTwo then .ok ⟨rOne, rTwo⟩
    else .ok ⟨rTwo, rOne⟩

end Sklp

namespace Sklp

/-- C2: whenever the inputs are positive but `c1 + Number.EPSILON` is below
`4 Q^2 c2`, `solveResistorsForCapacitors` fails with the
cannot-realize-Q error (the unity-gain pre-check), independently of the
value of the quadratic discriminant. -/
theorem solveResistorsForCapacitors_qPrecheck (fcHz Q c1 c2 : ℝ)
    (hf : 0 < fcHz) (hq : 0 < Q) (h1 : 0 < c1) (h2 : 0 < c2)
    (hlt : c1 + numberEpsilonReal < 4 * Q * Q * c2) :
    solveResistorsForCapacitors fcHz Q c1 c2 = .error .cannotRealizeQ := by
  rw [solveResistorsForCapacitors, if_neg (not_le.mpr hf), if_neg (not_le.mpr hq),
    if_neg (not_or.mpr ⟨not_le.mpr h1, not_le.mpr h2⟩), if_pos hlt]

/-- Witness for C2: the spec's feasibility-gate example
`fc = 1000, Q = 0.707, c1 = c2 = 1 nF` hits the pre-check error. -/
theorem solveResistorsForCapacitors_qPrecheck_witness :
    solveResistorsForCapacitors 1000 0.707 1e-9 1e-9 = .error .cannotRealizeQ :=
  solveResistorsForCapacitors_qPrecheck 1000 0.707 1e-9 1e-9
    (by norm_num) (by norm_num) (by norm_num) (by norm_num)
    (by norm_num [numberEpsilonReal])

end Sklp

namespace Sklp

/-- C9 (amended): both forward equations return `NaN` whenever the
intermediate product `r1 r2 c1 c2` is non-positive; a non-positive
individual input does not by itself force `NaN`. -/
theorem forwardEquations_nan_of_product_nonpos (r1 r2 c1 c2 : ℝ)
    (h : r1 * r2 * c1 * c2 ≤ 0) :
    computeNaturalFrequencyHz r1 r2 c1 c2 = none ∧
      computeQualityFactor r1 r2 c1 c2 = none := by
  constructor
  · rw [computeNaturalFrequencyHz, if_pos h]
  · rw [computeQualityFactor,
      if_pos (Or.inl (le_of_eq (Real.sqrt_eq_zero_of_nonpos h)))]

/-- Witness for C9 as amended: a zero resistor makes both equations `NaN`. -/
theorem forwardEquations_nan_witness :
    (0 : ℝ) * 1 * 1 * 1 ≤ 0 ∧
      computeNaturalFrequencyHz 0 1 1 1 = none ∧
      computeQualityFactor 0 1 1 1 = none :=
  ⟨by norm_num, forwardEquations_nan_of_product_nonpos 0 1 1 1 (by norm_num)⟩

/-- C9 counterexample: with `r1 = -1, r2 = 2, c1 = -1, c2 = 1` two inputs are
negative, yet the intermediate product is `2 > 0` and both forward equations
return finite values rather than `NaN`. -/
theorem forwardEquations_negative_input_defined :
    ((-1 : ℝ) ≤ 0) ∧
      computeNaturalFrequencyHz (-1) 2 (-1) 1 =
        some (1 / Real.sqrt 2 / (2 * Real.pi)) ∧
      computeNaturalFrequencyHz (-1) 2 (-1) 1 ≠ none ∧
      computeQualityFactor (-1) 2 (-1) 1 = some (Real.sqrt 2) ∧
      computeQualityFactor (-1) 2 (-1) 1 ≠ none := by
  have hp : ((-1 : ℝ)) * 2 * (-1) * 1 = 2 := by norm_num
  have hs : (0 : ℝ) < Real.sqrt 2 := Real.sqrt_pos.mpr (by norm_num)
  have hf : computeNaturalFrequencyHz (-1) 2 (-1) 1 =
      some (1 / Real.sqrt 2 / (2 * Real.pi)) := by
    rw [computeNaturalFrequencyHz, hp, if_neg (by norm_num)]
  have hq : computeQualityFactor (-1) 2 (-1) 1 = some (Real.sqrt 2) := by
    rw [computeQualityFactor, hp, if_neg]
    · norm_num
    · push_neg
      constructor
      · linarith
      · norm_num
  exact ⟨by norm_num, hf, by rw [hf]; simp, hq, by rw [hq]; simp⟩

end Sklp

namespace Sklp

/-- C1 (amended): when the unity-gain constraint `c1 >= 4 Q^2 c2` holds
exactly (not merely up to the `Number.EPSILON` slack of the pre-check), the
solver succeeds with `0 < r1 <= r2` and the forward equations reproduce the
requested cutoff and quality factor exactly (hence within any positive
relative tolerance such as `1e-6`). -/
theorem solveResistorsForCapacitors_roundTrip (fcHz Q c1 c2 : ℝ)
    (hf : 0 < fcHz) (hq : 0 < Q) (h1 : 0 < c1) (h2 : 0 < c2)
    (hc : 4 * Q * Q * c2 ≤ c1) :
    ∃ p : ResistorPair, solveResistorsForCapacitors fcHz Q c1 c2 = .ok p ∧
      0 < p.r1 ∧ p.r1 ≤ p.r2 ∧
      computeNaturalFrequencyHz p.r1 p.r2 c1 c2 = some fcHz ∧
      computeQualityFactor p.r1 p.r2 c1 c2 = some Q := by
  have hpi : (0 : ℝ) < Real.pi := Real.pi_pos
  have hw : 0 < omega0 fcHz := by
    rw [omega0]; positivity
  have hwne : omega0 fcHz ≠ 0 := ne_of_gt hw
  have hsum : 0 < rSum fcHz Q c2 := by
    rw [rSum]; positivity
  have hprod : 0 < rProduct fcHz c1 c2 := by
    rw [rProduct]; positivity
  have hdisc_eq : discriminant fcHz Q c1 c2 =
      (c1 - 4 * Q * Q * c2) /
        (omega0 fcHz * omega0 fcHz * Q * Q * c2 * c2 * c1) := by
    rw [discriminant, rSum, rProduct]
    field_simp
    ring
  have hdisc_nonneg : 0 ≤ discriminant fcHz Q c1 c2 := by
    rw [hdisc_eq]
    apply div_nonneg (by linarith)
    positivity
  set s := Real.sqrt (discriminant fcHz Q c1 c2) with hs
  have hs0 : 0 ≤ s := Real.sqrt_nonneg _
  have hs2 : s ^ 2 = discriminant fcHz Q c1 c2 := Real.sq_sqrt hdisc_nonneg
  have hdisc_lt : discriminant fcHz Q c1 c2 <
      rSum fcHz Q c2 * rSum fcHz Q c2 := by
    rw [discriminant]; linarith
  have hslt : s < rSum fcHz Q c2 := by
    nlinarith [hs2, hs0, hsum, hdisc_lt]
  have hmax : max 0 (discriminant fcHz Q c1 c2) =
      discriminant fcHz Q c1 c2 := max_eq_right hdisc_nonneg
  have heps : (0 : ℝ) < numberEpsilonReal := by norm_num [numberEpsilonReal]
  have htol : (0 : ℝ) < DISCRIMINANT_TOLERANCE := by
    norm_num [DISCRIMINANT_TOLERANCE]
  refine ⟨⟨(rSum fcHz Q c2 - s) / 2, (rSum fcHz Q c2 + s) / 2⟩, ?_, ?_, ?_, ?_, ?_⟩
  · rw [solveResistorsForCapacitors, if_neg (not_le.mpr hf), if_neg (not_le.mpr hq),
      if_neg (not_or.mpr ⟨not_le.mpr h1, not_le.mpr h2⟩),
      if_neg (by push_neg; linarith), if_neg (by push_neg; linarith)]
    simp only [hmax, ← hs]
    rw [if_neg (by push_neg; constructor <;> linarith),
      if_pos (by linarith)]
  · dsimp only
    linarith
  · dsimp only
    linarith
  · have hrr : (rSum fcHz Q c2 - s) / 2 * ((rSum fcHz Q c2 + s) / 2) * c1 * c2 =
        1 / (omega0 fcHz * omega0 fcHz) := by
      have hexp : (rSum fcHz Q c2 - s) / 2 * ((rSum fcHz Q c2 + s) / 2) =
          (rSum fcHz Q c2 * rSum fcHz Q c2 - s ^ 2) / 4 := by ring
      rw [hexp, hs2, discriminant]
      have : rSum fcHz Q c2 * rSum fcHz Q c2 -
          (rSum fcHz Q c2 * rSum fcHz Q c2 - 4 * rProduct fcHz c1 c2) =
          4 * rProduct fcHz c1 c2 := by ring
      rw [this, rProduct]
      field_simp
      ring
    rw [computeNaturalFrequencyHz, hrr, if_neg (not_le.mpr (by positivity))]
    have hsq : Real.sqrt (1 / (omega0 fcHz * omega0 fcHz)) = 1 / omega0 fcHz := by
      rw [show (1 : ℝ) / (omega0 fcHz * omega0 fcHz) = (1 / omega0 fcHz) ^ 2 by
        ring]
      exact Real.sqrt_sq (by positivity)
    rw [hsq]
    have hval : (1 : ℝ) / (1 / omega0 fcHz) / (2 * Real.pi) = fcHz := by
      rw [one_div_one_div, omega0]
      field_simp
    rw [hval]
  · have hrr : (rSum fcHz Q c2 - s) / 2 * ((rSum fcHz Q c2 + s) / 2) * c1 * c2 =
        1 / (omega0 fcHz * omega0 fcHz) := by
      have hexp : (rSum fcHz Q c2 - s) / 2 * ((rSum fcHz Q c2 + s) / 2) =
          (rSum fcHz Q c2 * rSum fcHz Q c2 - s ^ 2) / 4 := by ring
      rw [hexp, hs2, discriminant]
      have : rSum fcHz Q c2 * rSum fcHz Q c2 -
          (rSum fcHz Q c2 * rSum fcHz Q c2 - 4 * rProduct fcHz c1 c2) =
          4 * rProduct fcHz c1 c2 := by ring
      rw [this, rProduct]
      field_simp
      ring
    have hden : c2 * ((rSum fcHz Q c2 - s) / 2 + (rSum fcHz Q c2 + s) / 2) =
        1 / (omega0 fcHz * Q) := by
      have : (rSum fcHz Q c2 - s) / 2 + (rSum fcHz Q c2 + s) / 2 =
          rSum fcHz Q c2 := by ring
      rw [this, rSum]
      field_simp
      ring
    have hsq : Real.sqrt (1 / (omega0 fcHz * omega0 fcHz)) = 1 / omega0 fcHz := by
      rw [show (1 : ℝ) / (omega0 fcHz * omega0 fcHz) = (1 / omega0 fcHz) ^ 2 by
        ring]
      exact Real.sqrt_sq (by positivity)
    rw [computeQualityFactor, hrr, hden, hsq, if_neg]
    · have hval : (1 : ℝ) / omega0 fcHz / (1 / (omega0 fcHz * Q)) = Q := by
        field_simp
      rw [hval]
    · push_neg
      constructor
      · positivity
      · positivity
end Sklp

namespace Sklp

/-- Witness for C1 as amended, at `fc = 1000 Hz, Q = 1/2, c1 = c2 = 1 nF`
(equal capacitors are exactly at the unity-gain limit for `Q = 1/2`). -/
theorem solveResistorsForCapacitors_roundTrip_witness :
    (0 : ℝ) < 1000 ∧ (0 : ℝ) < 1 / 2 ∧ (0 : ℝ) < 1e-9 ∧
      4 * (1 / 2 : ℝ) * (1 / 2) * 1e-9 ≤ 1e-9 ∧
      (∃ p : ResistorPair, solveResistorsForCapacitors 1000 (1 / 2) 1e-9 1e-9 = .ok p ∧
        0 < p.r1 ∧ p.r1 ≤ p.r2 ∧
        computeNaturalFrequencyHz p.r1 p.r2 1e-9 1e-9 = some 1000 ∧
        computeQualityFactor p.r1 p.r2 1e-9 1e-9 = some (1 / 2)) :=
  ⟨by norm_num, by norm_num, by norm_num, by norm_num,
    solveResistorsForCapacitors_roundTrip 1000 (1 / 2) 1e-9 1e-9
      (by norm_num) (by norm_num) (by norm_num) (by norm_num) (by norm_num)⟩

/-- C1 counterexample: with `fc = 1e12, Q = 1e-8, c1 = 3e-16, c2 = 1` the
pre-check passes only thanks to the `Number.EPSILON` slack, the slightly
negative discriminant is clamped to zero, and the solver returns an equal
resistor pair whose recomputed natural frequency is `2e12 / sqrt 3`, off the
requested `1e12` by about 15 percent, far beyond `1e-6` relative error. -/
theorem solveResistorsForCapacitors_roundTrip_cex :
    ∃ p : ResistorPair,
      solveResistorsForCapacitors 1e12 1e-8 3e-16 1 = .ok p ∧
      computeNaturalFrequencyHz p.r1 p.r2 3e-16 1 = some (2e12 / Real.sqrt 3) ∧
      |2e12 / Real.sqrt 3 - 1e12| > 1e-6 * 1e12 := by
  have hpi0 : (0 : ℝ) < Real.pi := Real.pi_pos
  have hpi3 : (3 : ℝ) < Real.pi := Real.pi_gt_three
  have hpine : Real.pi ≠ 0 := ne_of_gt hpi0
  have hdisc_eq : discriminant 1e12 1e-8 3e-16 1 =
      -(1 / (12 * Real.pi ^ 2 * 1e8)) := by
    rw [discriminant, rSum, rProduct, omega0]
    field_simp
    ring
  have hdisc_nonpos : discriminant 1e12 1e-8 3e-16 1 ≤ 0 := by
    rw [hdisc_eq]
    have : (0 : ℝ) < 1 / (12 * Real.pi ^ 2 * 1e8) := by positivity
    linarith
  have hdisc_ge : ¬(discriminant 1e12 1e-8 3e-16 1 < -DISCRIMINANT_TOLERANCE) := by
    rw [hdisc_eq, DISCRIMINANT_TOLERANCE]
    push_neg
    have h12 : (1e9 : ℝ) ≤ 12 * Real.pi ^ 2 * 1e8 := by nlinarith
    have := one_div_le_one_div_of_le (by norm_num : (0 : ℝ) < 1e9) h12
    have h19 : (1 : ℝ) / 1e9 = 1e-9 := by norm_num
    linarith [this]
  have hsum_pos : 0 < rSum 1e12 1e-8 1 := by
    rw [rSum, omega0]
    positivity
  refine ⟨⟨rSum 1e12 1e-8 1 / 2, rSum 1e12 1e-8 1 / 2⟩, ?_, ?_, ?_⟩
  · rw [solveResistorsForCapacitors, if_neg (by norm_num), if_neg (by norm_num),
      if_neg (by norm_num), if_neg (by norm_num [numberEpsilonReal]),
      if_neg hdisc_ge]
    simp only [max_eq_left hdisc_nonpos, Real.sqrt_zero]
    rw [if_neg (by push_neg; constructor <;> linarith), if_pos (by norm_num)]
    norm_num
  · have hr : rSum 1e12 1e-8 1 / 2 = 1e-4 / (4 * Real.pi) := by
      rw [rSum, omega0]
      field_simp
      ring
    have hprod_eq : rSum 1e12 1e-8 1 / 2 * (rSum 1e12 1e-8 1 / 2) * 3e-16 * 1 =
        (1e-4 / (4 * Real.pi)) ^ 2 * 3e-16 := by
      rw [hr]
      ring
    have hs3 : (0 : ℝ) < Real.sqrt 3 := Real.sqrt_pos.mpr (by norm_num)
    have hsqrt : Real.sqrt ((1e-4 / (4 * Real.pi)) ^ 2 * 3e-16) =
        1e-4 / (4 * Real.pi) * (1e-8 * Real.sqrt 3) := by
      have h3 : (3e-16 : ℝ) = (1e-8) ^ 2 * 3 := by norm_num
      rw [h3, show ((1e-4 : ℝ) / (4 * Real.pi)) ^ 2 * ((1e-8 : ℝ) ^ 2 * 3) =
        (1e-4 / (4 * Real.pi) * 1e-8) ^ 2 * 3 by ring]
      rw [Real.sqrt_mul (sq_nonneg _) 3, Real.sqrt_sq (by positivity)]
      ring
    rw [computeNaturalFrequencyHz, hprod_eq,
      if_neg (not_le.mpr (by positivity)), hsqrt]
    have hval : (1 : ℝ) / (1e-4 / (4 * Real.pi) * (1e-8 * Real.sqrt 3)) /
        (2 * Real.pi) = 2e12 / Real.sqrt 3 := by
      field_simp
      ring
    rw [hval]
  · have hs3 : (0 : ℝ) < Real.sqrt 3 := Real.sqrt_pos.mpr (by norm_num)
    have hub : Real.sqrt 3 < 1.74 := by
      rw [Real.sqrt_lt' (by norm_num)]
      norm_num
    have hgt : (1e12 : ℝ) + 1e6 < 2e12 / Real.sqrt 3 := by
      rw [lt_div_iff₀ hs3]
      nlinarith
    rw [abs_of_pos (by linarith)]
    linarith

end Sklp

/-! ### The sklp candidate evaluator and deterministic comparator -/

namespace Sklp

/-- The `CandidateSolution` record of `src/lib/sklp/solve.ts`. -/
structure CandidateSolution where
  c1 : ℝ
  c2 : ℝ
  r1 : ℝ
  r2 : ℝ
  spread : ℝ
  maxR : ℝ
  capRatio : ℝ
  baseDelta : ℝ

/-- `evaluateCandidate` from `src/lib/sklp/solve.ts`: derive the ranking
metrics (resistor spread, larger resistor, capacitor ratio, and the
log-decade distance of `c2` from the optional seed `cBase`). -/
noncomputable def evaluateCandidate (c1 c2 r1 r2 : ℝ) (cBase : Option ℝ) :
    CandidateSolution where
  c1 := c1
  c2 := c2
  r1 := r1
  r2 := r2
  spread := max r1 r2 / min r1 r2
  maxR := max r1 r2
  capRatio := max c1 c2 / min c1 c2
  baseDelta :=
    match cBase with
    | some cb => if 0 < cb then |Real.logb 10 (c2 / cb)| else 0
    | none => 0

/-- `compareCandidates` from `src/lib/sklp/solve.ts`: walk the keys
`spread, maxR, capRatio, baseDelta, c2, c1` in order, each compared with the
`COMPARISON_TOLERANCE` band, returning the sign of the first difference that
exceeds the band. -/
noncomputable def compareCandidates (a b : CandidateSolution) : ℤ :=
  if a.spread < b.spread - COMPARISON_TOLERANCE then -1
  else if a.spread > b.spread + COMPARISON_TOLERANCE then 1
  else if a.maxR < b.maxR - COMPARISON_TOLERANCE then -1
  else if a.maxR > b.maxR + COMPARISON_TOLERANCE then 1
  else if a.capRatio < b.capRatio - COMPARISON_TOLERANCE then -1
  else if a.capRatio > b.capRatio + COMPARISON_TOLERANCE then 1
  else if a.baseDelta < b.baseDelta - COMPARISON_TOLERANCE then -1
  else if a.baseDelta > b.baseDelta + COMPARISON_TOLERANCE then 1
  else if a.c2 < b.c2 - COMPARISON_TOLERANCE then -1
  else if a.c2 > b.c2 + COMPARISON_TOLERANCE then 1
  else if a.c1 < b.c1 - COMPARISON_TOLERANCE then -1
  else if a.c1 > b.c1 + COMPARISON_TOLERANCE then 1
  else 0

end Sklp

/-! ### The dual-gang potentiometer variant (`src/lib/sklp_equal_pot/solve.ts`) -/

namespace SklpEqualPot

/-- `DEFAULT_RELATIVE_TOLERANCE` (2 percent). -/
noncomputable def DEFAULT_RELATIVE_TOLERANCE : ℝ := 0.02

/-- `DEFAULT_MIN_CAPACITANCE` (10 pF). -/
def DEFAULT_MIN_CAPACITANCE : ℚ := 10e-12

/-- `DEFAULT_MAX_CAPACITANCE` (10 uF). -/
def DEFAULT_MAX_CAPACITANCE : ℚ := 10e-6

/-- `TARGET_Q = Math.SQRT1_2`. -/
noncomputable def TARGET_Q : ℝ := Real.sqrt (1 / 2)

/-- The decade range `MIN_DECADE .. MAX_DECADE` (`-11 .. -5`). -/
def potDecades : List ℤ := [-11, -10, -9, -8, -7, -6, -5]

/-- The `CandidateScore` record of `src/lib/sklp_equal_pot/solve.ts`; the
two capacitor values are kept as exact preferred values. -/
structure CandidateScore where
  c1 : ℚ
  c2 : ℚ
  f50 : ℝ
  q : ℝ
  relErr : ℝ
  logError : ℝ
  qPenalty : ℝ
  totalCapacitance : ℝ
  spread : ℝ

/-- `compareCandidates` from `src/lib/sklp_equal_pot/solve.ts`: the
JavaScript comparator returns the raw difference of the first key on which
the two candidates differ exactly (no epsilon band), walking
`logError, qPenalty, totalCapacitance, spread`. -/
noncomputable def compareCandidates (a b : CandidateScore) : ℝ :=
  if a.logError ≠ b.logError then a.logError - b.logError
  else if a.qPenalty ≠ b.qPenalty then a.qPenalty - b.qPenalty
  else if a.totalCapacitance ≠ b.totalCapacitance then
    a.totalCapacitance - b.totalCapacitance
  else if a.spread ≠ b.spread then a.spread - b.spread
  else 0

end SklpEqualPot

/-! ### Generic key walks, for stating the comparator contracts -/

namespace Sklp

/-- A tolerance-banded key walk: compare a list of numeric keys in priority
order, returning the sign of the first difference exceeding the band. -/
noncomputable def keyWalkEps (eps : ℝ) :
    List (CandidateSolution → ℝ) → CandidateSolution → CandidateSolution → ℤ
  | [], _, _ => 0
  | k :: ks, a, b =>
    if k a < k b - eps then -1
    else if k a > k b + eps then 1
    else keyWalkEps eps ks a b

/-- The ranking keys of the sklp comparator, in its priority order. -/
noncomputable def sklpRankingKeys : List (CandidateSolution → ℝ) :=
  [fun c => c.spread, fun c => c.maxR, fun c => c.capRatio,
   fun c => c.baseDelta, fun c => c.c2, fun c => c.c1]

end Sklp

namespace SklpEqualPot

/-- An exact key walk: return the raw difference of the first key on which
the candidates differ. -/
noncomputable def keyWalkDiff :
    List (CandidateScore → ℝ) → CandidateScore → CandidateScore → ℝ
  | [], _, _ => 0
  | k :: ks, a, b => if k a ≠ k b then k a - k b else keyWalkDiff ks a b

/-- The ranking keys of the equal-pot comparator, in its priority order. -/
noncomputable def equalPotRankingKeys : List (CandidateScore → ℝ) :=
  [fun c => c.logError, fun c => c.qPenalty,
   fun c => c.totalCapacitance, fun c => c.spread]

end SklpEqualPot

namespace Sklp

/-- C3 (amended): the epsilon-banded comparator is transitive whenever the
comparisons are decided at the first ranking key (the resistor spread) with
the full tolerance margin; in general the epsilon band makes it
non-transitive. -/
theorem compareCandidates_transitive_at_first_key (a b c : CandidateSolution)
    (hab : a.spread < b.spread - COMPARISON_TOLERANCE)
    (hbc : b.spread < c.spread - COMPARISON_TOLERANCE) :
    compareCandidates a b = -1 ∧ compareCandidates b c = -1 ∧
      compareCandidates a c = -1 := by
  have htol : (0 : ℝ) < COMPARISON_TOLERANCE := by norm_num [COMPARISON_TOLERANCE]
  refine ⟨?_, ?_, ?_⟩
  · rw [compareCandidates, if_pos hab]
  · rw [compareCandidates, if_pos hbc]
  · rw [compareCandidates, if_pos (by linarith)]

/-- Witness for C3 as amended: three candidates with well-separated spreads. -/
theorem compareCandidates_transitive_at_first_key_witness :
    compareCandidates ⟨1, 1, 1, 1, 1, 100, 1, 0⟩ ⟨1, 1, 1, 1, 2, 100, 1, 0⟩ = -1 ∧
      compareCandidates ⟨1, 1, 1, 1, 2, 100, 1, 0⟩ ⟨1, 1, 1, 1, 3, 100, 1, 0⟩ = -1 ∧
      compareCandidates ⟨1, 1, 1, 1, 1, 100, 1, 0⟩ ⟨1, 1, 1, 1, 3, 100, 1, 0⟩ = -1 :=
  compareCandidates_transitive_at_first_key _ _ _
    (by norm_num [COMPARISON_TOLERANCE]) (by norm_num [COMPARISON_TOLERANCE])

/-- C3 counterexample: candidates `a, b, c` with `compare(a,b) = -1` (decided
on spread), `compare(b,c) = -1` (spreads within the band, decided on `maxR`),
yet `compare(a,c) = 1`: the epsilon-banded comparator is not transitive. -/
theorem compareCandidates_not_transitive :
    compareCandidates ⟨1, 1, 1, 1, 1, 300, 1, 0⟩
        ⟨1, 1, 1, 1, 1 + 2e-9, 100, 1, 0⟩ = -1 ∧
      compareCandidates ⟨1, 1, 1, 1, 1 + 2e-9, 100, 1, 0⟩
        ⟨1, 1, 1, 1, 1 + 1e-9, 200, 1, 0⟩ = -1 ∧
      compareCandidates ⟨1, 1, 1, 1, 1, 300, 1, 0⟩
        ⟨1, 1, 1, 1, 1 + 1e-9, 200, 1, 0⟩ = 1 := by
  refine ⟨?_, ?_, ?_⟩
  · rw [compareCandidates, if_pos (by norm_num [COMPARISON_TOLERANCE])]
  · rw [compareCandidates, if_neg (by norm_num [COMPARISON_TOLERANCE]),
      if_neg (by norm_num [COMPARISON_TOLERANCE]),
      if_pos (by norm_num [COMPARISON_TOLERANCE])]
  · rw [compareCandidates, if_neg (by norm_num [COMPARISON_TOLERANCE]),
      if_neg (by norm_num [COMPARISON_TOLERANCE]),
      if_neg (by norm_num [COMPARISON_TOLERANCE]),
      if_pos (by norm_num [COMPARISON_TOLERANCE])]

end Sklp

/-- C4 (amended): each solver variant's comparator is a key walk over its own
priority order: the sklp comparator walks
`spread, maxR, capRatio, baseDelta, c2, c1` with the `1e-9` tolerance band,
while the equal-pot comparator walks
`logError, qPenalty, totalCapacitance, spread` by exact comparison with no
epsilon, returning the raw difference of the first differing key. -/
theorem comparators_are_their_keyWalks :
    (∀ a b, Sklp.compareCandidates a b =
      Sklp.keyWalkEps Sklp.COMPARISON_TOLERANCE Sklp.sklpRankingKeys a b) ∧
    (∀ a b, SklpEqualPot.compareCandidates a b =
      SklpEqualPot.keyWalkDiff SklpEqualPot.equalPotRankingKeys a b) := by
  constructor
  · intro a b
    simp only [Sklp.sklpRankingKeys, Sklp.keyWalkEps, Sklp.compareCandidates]
  · intro a b
    simp only [SklpEqualPot.equalPotRankingKeys, SklpEqualPot.keyWalkDiff,
      SklpEqualPot.compareCandidates]

/-- C4 counterexample: (i) in the sklp comparator the seed bias `baseDelta`
favours the first candidate by far more than the tolerance, yet the
comparator returns `1` because the topology key `spread` is walked first —
not the order claimed in the spec; (ii) in the equal-pot comparator a
`logError` difference of only `1e-12`, far below the claimed `1e-9` band,
decides the order against the strongly separated `qPenalty` key. -/
theorem comparator_priority_claim_cex :
    ((⟨1, 1, 1, 1, 3, 100, 1, 0⟩ : Sklp.CandidateSolution).baseDelta +
        Sklp.COMPARISON_TOLERANCE <
        (⟨1, 1, 1, 1, 1, 100, 1, 5⟩ : Sklp.CandidateSolution).baseDelta ∧
      Sklp.compareCandidates ⟨1, 1, 1, 1, 3, 100, 1, 0⟩
        ⟨1, 1, 1, 1, 1, 100, 1, 5⟩ = 1) ∧
    (SklpEqualPot.compareCandidates ⟨1, 1, 1, 1, 0, 0, 2, 1, 1⟩
        ⟨1, 1, 1, 1, 0, 1e-12, 0, 1, 1⟩ < 0 ∧
      |(⟨1, 1, 1, 1, 0, 0, 2, 1, 1⟩ : SklpEqualPot.CandidateScore).logError -
        (⟨1, 1, 1, 1, 0, 1e-12, 0, 1, 1⟩ : SklpEqualPot.CandidateScore).logError| ≤
        1e-9 ∧
      (⟨1, 1, 1, 1, 0, 1e-12, 0, 1, 1⟩ : SklpEqualPot.CandidateScore).qPenalty +
        1e-9 <
        (⟨1, 1, 1, 1, 0, 0, 2, 1, 1⟩ : SklpEqualPot.CandidateScore).qPenalty) := by
  refine ⟨⟨?_, ?_⟩, ?_, ?_, ?_⟩
  · norm_num [Sklp.COMPARISON_TOLERANCE]
  · rw [Sklp.compareCandidates,
      if_neg (by norm_num [Sklp.COMPARISON_TOLERANCE]),
      if_pos (by norm_num [Sklp.COMPARISON_TOLERANCE])]
  · rw [SklpEqualPot.compareCandidates, if_pos (by norm_num)]
    norm_num
  · show |(0 : ℝ) - 1e-12| ≤ 1e-9
    rw [zero_sub, abs_neg, abs_of_nonneg (by norm_num)]
    norm_num
  · norm_num

/-! ### The fixed-window Cartesian search `solveSallenKeyLP` -/

namespace Sklp

/-- The E6 capacitor list used by `solveSallenKeyLP`
(`generateE6Capacitors()` at the default bounds, which always succeeds). -/
def defaultCapacitors : List ℚ :=
  (generateE6Capacitors MIN_CAPACITANCE_F MAX_CAPACITANCE_F).toOption.getD []

/-- The Cartesian product of capacitor pairs enumerated by the
`for c1 / for c2` loops of `solveSallenKeyLP`, in iteration order. -/
def capacitorPairs : List (ℚ × ℚ) :=
  defaultCapacitors.flatMap fun a => defaultCapacitors.map fun b => (a, b)

/-- The result record of `solveSallenKeyLP`. -/
structure SolveSallenKeyLPResult where
  c1 : ℝ
  c2 : ℝ
  r1 : ℝ
  r2 : ℝ
  fc : Option ℝ
  q : Option ℝ

/-- The `continue` guard of the ratio filter in `solveSallenKeyLP`: a
positive target ratio was requested and the pair misses it by more than
`RATIO_TOLERANCE` relative deviation. -/
noncomputable def ratioMismatch (ratio : Option ℝ) (c1 c2 : ℝ) : Prop :=
  match ratio with
  | some rat => 0 < rat ∧ |c1 / c2 - rat| / rat > RATIO_TOLERANCE
  | none => False

noncomputable instance (ratio : Option ℝ) (c1 c2 : ℝ) :
    Decidable (ratioMismatch ratio c1 c2) :=
  Classical.propDecidable _

/-- One iteration of the `solveSallenKeyLP` search loop: skip the pair on a
ratio mismatch, skip infeasible resistor solves and out-of-bounds resistors,
otherwise keep the comparator-smaller of the evaluated candidate and the
current best. -/
noncomputable def considerPair (fcHz Q : ℝ) (cBase ratio : Option ℝ)
    (best : Option CandidateSolution) (p : ℚ × ℚ) : Option CandidateSolution :=
  if ratioMismatch ratio (p.1 : ℝ) (p.2 : ℝ) then best
  else
    match solveResistorsForCapacitors fcHz Q (p.1 : ℝ) (p.2 : ℝ) with
    | .error _ => best
    | .ok pair =>
      if pair.r1 < MIN_RESISTANCE_OHMS ∨ pair.r2 < MIN_RESISTANCE_OHMS ∨
          pair.r1 > MAX_RESISTANCE_OHMS ∨ pair.r2 > MAX_RESISTANCE_OHMS then best
      else
        let cand := evaluateCandidate (p.1 : ℝ) (p.2 : ℝ) pair.r1 pair.r2 cBase
        match best with
        | none => some cand
        | some b => if compareCandidates cand b < 0 then some cand else some b

/-- `solveSallenKeyLP` from `src/lib/sklp/solve.ts`: validate the target,
fold the search loop over every capacitor pair, and report the best
candidate together with its recomputed natural frequency and quality
factor (or the no-feasible-pair error). -/
noncomputable def solveSallenKeyLP (fcHz Q : ℝ) (cBase ratio : Option ℝ) :
    Except SklpError SolveSallenKeyLPResult :=
  if fcHz ≤ 0 then .error .invalidFc
  else if Q ≤ 0 then .error .invalidQ
  else
    match capacitorPairs.foldl (considerPair fcHz Q cBase ratio) none with
    | none => .error .noFeasiblePair
    | some best =>
      .ok { c1 := best.c1, c2 := best.c2, r1 := best.r1, r2 := best.r2,
            fc := computeNaturalFrequencyHz best.r1 best.r2 best.c1 best.c2,
            q := computeQualityFactor best.r1 best.r2 best.c1 best.c2 }

end Sklp

namespace Sklp

/-- Every successful resistor solve is canonicalized: positive and with the
smaller resistor first. -/
theorem solveResistorsForCapacitors_ok_sorted (fcHz Q c1 c2 : ℝ)
    (p : ResistorPair) (h : solveResistorsForCapacitors fcHz Q c1 c2 = .ok p) :
    0 < p.r1 ∧ p.r1 ≤ p.r2 := by
  simp only [solveResistorsForCapacitors] at h
  split_ifs at h with h1 h2 h3 h4 h5 h6 h7
  · cases h
    push_neg at h6
    exact ⟨h6.1, h7⟩
  · cases h
    push_neg at h6
    exact ⟨h6.2, le_of_lt (lt_of_not_le h7)⟩

end Sklp

namespace Sklp

/-- At the default window the epsilon slack admits no extra values: every
enumerated E6 candidate that passes the filter lies exactly inside
`[100 pF, 10 uF]`. -/
theorem e6_candidate_default_bounds (m : ℚ) (e : ℤ)
    (hm : m ∈ E6_SERIES) (he : e ∈ decadeExponents)
    (hcond : MIN_CAPACITANCE_F - numberEPSILON ≤ m * (10 : ℚ) ^ e ∧
      m * (10 : ℚ) ^ e ≤ MAX_CAPACITANCE_F + numberEPSILON) :
    MIN_CAPACITANCE_F ≤ m * (10 : ℚ) ^ e ∧
      m * (10 : ℚ) ^ e ≤ MAX_CAPACITANCE_F := by
  have hmb := e6_mantissa_bounds m hm
  have hzp : (0 : ℚ) < (10 : ℚ) ^ e := by positivity
  constructor
  · by_cases hlow : (-10 : ℤ) ≤ e
    · have h10 : (10 : ℚ) ^ (-10 : ℤ) ≤ (10 : ℚ) ^ e :=
        zpow_le_zpow_right₀ (by norm_num) hlow
      calc MIN_CAPACITANCE_F = 1 * (10 : ℚ) ^ (-10 : ℤ) := by
            norm_num [MIN_CAPACITANCE_F]
        _ ≤ m * (10 : ℚ) ^ e := by
            apply mul_le_mul hmb.1 h10 (by positivity) (by linarith [hmb.1])
    · push_neg at hlow
      exfalso
      have h10 : (10 : ℚ) ^ e ≤ (10 : ℚ) ^ (-11 : ℤ) :=
        zpow_le_zpow_right₀ (by norm_num) (by omega)
      have hsmall : m * (10 : ℚ) ^ e ≤ (34 / 5) * (10 : ℚ) ^ (-11 : ℤ) :=
        mul_le_mul hmb.2 h10 (le_of_lt hzp) (by norm_num)
      have := le_trans hcond.1 hsmall
      norm_num [MIN_CAPACITANCE_F, numberEPSILON] at this
  · by_cases hhigh : e ≤ (-6 : ℤ)
    · have h10 : (10 : ℚ) ^ e ≤ (10 : ℚ) ^ (-6 : ℤ) :=
        zpow_le_zpow_right₀ (by norm_num) hhigh
      have hsmall : m * (10 : ℚ) ^ e ≤ (34 / 5) * (10 : ℚ) ^ (-6 : ℤ) :=
        mul_le_mul hmb.2 h10 (le_of_lt hzp) (by norm_num)
      calc m * (10 : ℚ) ^ e ≤ (34 / 5) * (10 : ℚ) ^ (-6 : ℤ) := hsmall
        _ ≤ MAX_CAPACITANCE_F := by norm_num [MAX_CAPACITANCE_F]
    · push_neg at hhigh
      by_cases hvh : (-4 : ℤ) ≤ e
      · exfalso
        have h10 : (10 : ℚ) ^ (-4 : ℤ) ≤ (10 : ℚ) ^ e :=
          zpow_le_zpow_right₀ (by norm_num) hvh
        have hbig : 1 * (10 : ℚ) ^ (-4 : ℤ) ≤ m * (10 : ℚ) ^ e :=
          mul_le_mul hmb.1 h10 (by positivity) (by linarith [hmb.1])
        have := le_trans hbig hcond.2
        norm_num [MAX_CAPACITANCE_F, numberEPSILON] at this
      · push_neg at hvh
        have he5 : e = -5 := by omega
        subst he5
        fin_cases hm
        · norm_num [MAX_CAPACITANCE_F]
        · exfalso
          have := hcond.2
          norm_num [MAX_CAPACITANCE_F, numberEPSILON] at this
        · exfalso
          have := hcond.2
          norm_num [MAX_CAPACITANCE_F, numberEPSILON] at this
        · exfalso
          have := hcond.2
          norm_num [MAX_CAPACITANCE_F, numberEPSILON] at this
        · exfalso
          have := hcond.2
          norm_num [MAX_CAPACITANCE_F, numberEPSILON] at this
        · exfalso
          have := hcond.2
          norm_num [MAX_CAPACITANCE_F, numberEPSILON] at this

/-- Unpacking membership in a successful `generateE6Capacitors` output. -/
theorem generateE6Capacitors_ok_mem (mn mx v : ℚ) (l : List ℚ)
    (h : generateE6Capacitors mn mx = .ok l) (hv : v ∈ l) :
    ∃ m ∈ E6_SERIES, ∃ e ∈ decadeExponents, v = m * (10 : ℚ) ^ e ∧
      mn - numberEPSILON ≤ v ∧ v ≤ mx + numberEPSILON := by
  rw [generateE6Capacitors] at h
  split_ifs at h with hval
  obtain rfl : List.insertionSort (· ≤ ·) (e6CandidatesIn mn mx).dedup = l :=
    by injection h
  have hv2 : v ∈ e6CandidatesIn mn mx :=
    List.mem_dedup.mp (((List.perm_insertionSort _ _).mem_iff).mp hv)
  rw [e6CandidatesIn] at hv2
  simp only [List.mem_flatMap, List.mem_filterMap] at hv2
  obtain ⟨e, he, m, hm, hcond⟩ := hv2
  split_ifs at hcond with hrange
  obtain rfl : round12 (m * (10 : ℚ) ^ e) = v := Option.some_injective _ hcond
  rw [round12_e6 m hm e]
  exact ⟨m, hm, e, he, rfl, hrange⟩

/-- Every element of the default capacitor list lies exactly inside the
configured window `[100 pF, 10 uF]`. -/
theorem defaultCapacitors_bounds (v : ℚ) (hv : v ∈ defaultCapacitors) :
    MIN_CAPACITANCE_F ≤ v ∧ v ≤ MAX_CAPACITANCE_F := by
  rw [defaultCapacitors] at hv
  rcases hgen : generateE6Capacitors MIN_CAPACITANCE_F MAX_CAPACITANCE_F with err | l
  · rw [hgen] at hv
    simp [Except.toOption] at hv
  · rw [hgen] at hv
    simp only [Except.toOption, Option.getD_some] at hv
    obtain ⟨m, hm, e, he, rfl, hrange⟩ :=
      generateE6Capacitors_ok_mem MIN_CAPACITANCE_F MAX_CAPACITANCE_F v l hgen hv
    exact e6_candidate_default_bounds m e hm he hrange

end Sklp

namespace Sklp

/-- The invariant maintained by the `solveSallenKeyLP` search loop: the best
candidate's capacitors come from the E6 list and its resistors are ordered
and within the configured resistance bounds. -/
def CandidateWithinBounds (cand : CandidateSolution) : Prop :=
  (∃ q1 ∈ defaultCapacitors, cand.c1 = (q1 : ℝ)) ∧
  (∃ q2 ∈ defaultCapacitors, cand.c2 = (q2 : ℝ)) ∧
  MIN_RESISTANCE_OHMS ≤ cand.r1 ∧ cand.r1 ≤ cand.r2 ∧
  cand.r2 ≤ MAX_RESISTANCE_OHMS

/-- One search step preserves the loop invariant. -/
theorem considerPair_bounds (fcHz Q : ℝ) (cBase ratio : Option ℝ)
    (best : Option CandidateSolution) (p : ℚ × ℚ)
    (hp1 : p.1 ∈ defaultCapacitors) (hp2 : p.2 ∈ defaultCapacitors)
    (hbest : ∀ c, best = some c → CandidateWithinBounds c) :
    ∀ c, considerPair fcHz Q cBase ratio best p = some c →
      CandidateWithinBounds c := by
  intro c hc
  rw [considerPair] at hc
  split_ifs at hc with hskip
  · exact hbest c hc
  · split at hc
    · exact hbest c hc
    · rename_i pair heq
      split_ifs at hc with hbnd
      · exact hbest c hc
      · push_neg at hbnd
        have hsor := solveResistorsForCapacitors_ok_sorted _ _ _ _ pair heq
        have hcand : CandidateWithinBounds
            (evaluateCandidate (p.1 : ℝ) (p.2 : ℝ) pair.r1 pair.r2 cBase) := by
          refine ⟨⟨p.1, hp1, rfl⟩, ⟨p.2, hp2, rfl⟩, ?_, ?_, ?_⟩
          · exact hbnd.1
          · exact hsor.2
          · exact hbnd.2.2.2
        cases best with
        | none =>
          cases hc
          exact hcand
        | some b =>
          dsimp only at hc
          split_ifs at hc
          · cases hc
            exact hcand
          · cases hc
            exact hbest _ rfl

/-- The whole search fold preserves the loop invariant. -/
theorem foldl_considerPair_bounds (fcHz Q : ℝ) (cBase ratio : Option ℝ)
    (ps : List (ℚ × ℚ))
    (hps : ∀ p ∈ ps, p.1 ∈ defaultCapacitors ∧ p.2 ∈ defaultCapacitors)
    (acc : Option CandidateSolution)
    (hacc : ∀ c, acc = some c → CandidateWithinBounds c) :
    ∀ c, ps.foldl (considerPair fcHz Q cBase ratio) acc = some c →
      CandidateWithinBounds c := by
  induction ps generalizing acc with
  | nil =>
    intro c hc
    rw [List.foldl_nil] at hc
    exact hacc c hc
  | cons hd tl ih =>
    intro c hc
    rw [List.foldl_cons] at hc
    have hhd := hps hd (List.mem_cons_self hd tl)
    exact ih (fun p hp => hps p (List.mem_cons_of_mem hd hp)) _
      (considerPair_bounds fcHz Q cBase ratio acc hd hhd.1 hhd.2 hacc) c hc

/-- Every enumerated pair draws both components from the E6 list. -/
theorem capacitorPairs_mem (p : ℚ × ℚ) (hp : p ∈ capacitorPairs) :
    p.1 ∈ defaultCapacitors ∧ p.2 ∈ defaultCapacitors := by
  rw [capacitorPairs] at hp
  simp only [List.mem_flatMap, List.mem_map] at hp
  obtain ⟨a, ha, b, hb, rfl⟩ := hp
  exact ⟨ha, hb⟩

/-- C10: every successful `solveSallenKeyLP` result uses E6 capacitors
inside `[100 pF, 10 uF]` and resistors with
`100 Ohm <= r1 <= r2 <= 10 MOhm`. -/
theorem solveSallenKeyLP_withinBounds (fcHz Q : ℝ) (cBase ratio : Option ℝ) :
    match solveSallenKeyLP fcHz Q cBase ratio with
    | .error _ => True
    | .ok res =>
      (∃ q1 ∈ defaultCapacitors, res.c1 = (q1 : ℝ)) ∧
      (∃ q2 ∈ defaultCapacitors, res.c2 = (q2 : ℝ)) ∧
      ((MIN_CAPACITANCE_F : ℚ) : ℝ) ≤ res.c1 ∧
      res.c1 ≤ ((MAX_CAPACITANCE_F : ℚ) : ℝ) ∧
      ((MIN_CAPACITANCE_F : ℚ) : ℝ) ≤ res.c2 ∧
      res.c2 ≤ ((MAX_CAPACITANCE_F : ℚ) : ℝ) ∧
      MIN_RESISTANCE_OHMS ≤ res.r1 ∧ res.r1 ≤ res.r2 ∧
      res.r2 ≤ MAX_RESISTANCE_OHMS := by
  rcases hsolve : solveSallenKeyLP fcHz Q cBase ratio with err | res
  · trivial
  · rw [solveSallenKeyLP] at hsolve
    split_ifs at hsolve
    split at hsolve
    · exact absurd hsolve (by simp)
    · rename_i best heq
      have hgood : CandidateWithinBounds best :=
        foldl_considerPair_bounds fcHz Q cBase ratio capacitorPairs
          capacitorPairs_mem none (fun c hc => by cases hc) best heq
      obtain ⟨⟨q1, hq1, he1⟩, ⟨q2, hq2, he2⟩, hr1, hrr, hr2⟩ := hgood
      cases hsolve
      have hb1 := defaultCapacitors_bounds q1 hq1
      have hb2 := defaultCapacitors_bounds q2 hq2
      dsimp only
      refine ⟨⟨q1, hq1, he1⟩, ⟨q2, hq2, he2⟩, ?_, ?_, ?_, ?_, hr1, hrr, hr2⟩
      · rw [he1]
        exact_mod_cast hb1.1
      · rw [he1]
        exact_mod_cast hb1.2
      · rw [he2]
        exact_mod_cast hb2.1
      · rw [he2]
        exact_mod_cast hb2.2

end Sklp

/-! ### The expanding-decade capacitor search `pickE6CapsForF50` -/

namespace SklpEqualPot

/-- `buildCapacitorValues` inner loop: the E6 values of one decade filtered
to `[DEFAULT_MIN_CAPACITANCE, DEFAULT_MAX_CAPACITANCE]`. -/
def decadeValues (d : ℤ) : List ℚ :=
  E6_SERIES.filterMap fun m =>
    let value := m * (10 : ℚ) ^ d
    if DEFAULT_MIN_CAPACITANCE ≤ value ∧ value ≤ DEFAULT_MAX_CAPACITANCE then
      some value
    else
      none

/-- `buildCapacitorValues` from `src/lib/sklp_equal_pot/solve.ts`: the map
from decade exponent to that decade's in-range E6 values, keeping only
non-empty decades, in ascending decade order (the `Map` insertion order). -/
def buildCapacitorValues : List (ℤ × List ℚ) :=
  (potDecades.map fun d => (d, decadeValues d)).filter fun p => !p.2.isEmpty

/-- `valuesByDecade.get(d)` with the `continue`-on-missing behaviour folded
into an empty list. -/
def lookupDecade (vals : List (ℤ × List ℚ)) (d : ℤ) : List ℚ :=
  ((vals.find? fun p => p.1 == d).map Prod.snd).getD []

/-- The distance-then-decade order used by `sortedDecades` around a base
decade. -/
def distRel (base d e : ℤ) : Prop :=
  |d - base| < |e - base| ∨ (|d - base| = |e - base| ∧ d ≤ e)

instance (base d e : ℤ) : Decidable (distRel base d e) := by
  rw [distRel]
  infer_instance

/-- `sortedDecades` from `src/lib/sklp_equal_pot/solve.ts`: the decade keys
in ascending order; when a positive finite seed `cBase` is given, re-sorted
by distance from the seed's decade `floor(log10 cBase)` with ties going to
the smaller decade. -/
def sortedDecades (vals : List (ℤ × List ℚ)) : Option ℚ → List ℤ
  | none => List.insertionSort (· ≤ ·) (vals.map Prod.fst)
  | some cb =>
    if cb ≤ 0 then List.insertionSort (· ≤ ·) (vals.map Prod.fst)
    else
      List.insertionSort (distRel (Int.log 10 cb))
        (List.insertionSort (· ≤ ·) (vals.map Prod.fst))

/-- `fcFromRRC` from `src/lib/sklp_equal_pot/solve.ts`:
`f = 1 / (2 pi R sqrt(c1 c2))`, `NaN` (`none`) on non-positive inputs. -/
noncomputable def fcFromRRC (rOhms c1Farads c2Farads : ℝ) : Option ℝ :=
  if rOhms ≤ 0 ∨ c1Farads ≤ 0 ∨ c2Farads ≤ 0 then none
  else some (1 / (2 * Real.pi * rOhms * Real.sqrt (c1Farads * c2Farads)))

/-- `qFromCaps` from `src/lib/sklp_equal_pot/solve.ts`:
`Q = sqrt(c1/c2) / 2`, `NaN` (`none`) on non-positive inputs. -/
noncomputable def qFromCaps (c1Farads c2Farads : ℝ) : Option ℝ :=
  if c1Farads ≤ 0 ∨ c2Farads ≤ 0 then none
  else some (0.5 * Real.sqrt (c1Farads / c2Farads))

/-- `createCandidate` from `src/lib/sklp_equal_pot/solve.ts`: score one
capacitor pair at the 50 percent potentiometer point; `null` (`none`) when
the operating frequency or the target is unusable.  For positive preferred
values the quality factor is always defined, so the infinite `qPenalty`
branch of the source is unreachable here. -/
noncomputable def createCandidate (c1 c2 : ℚ) (fTarget r50 : ℝ) :
    Option CandidateScore :=
  match fcFromRRC r50 (c1 : ℝ) (c2 : ℝ), qFromCaps (c1 : ℝ) (c2 : ℝ) with
  | some f50, some q =>
    if f50 ≤ 0 ∨ fTarget ≤ 0 then none
    else
      some
        { c1 := c1, c2 := c2, f50 := f50, q := q,
          relErr := |f50 - fTarget| / fTarget,
          logError := |Real.log (f50 / fTarget)|,
          qPenalty := |q - TARGET_Q|,
          totalCapacitance := (c1 : ℝ) + (c2 : ℝ),
          spread := max (c1 : ℝ) (c2 : ℝ) / min (c1 : ℝ) (c2 : ℝ) }
  | _, _ => none

/-- The running pair of bests of the search loop. -/
structure SearchState where
  bestOverall : Option CandidateScore
  bestWithin : Option CandidateScore

/-- Replace the current best by the candidate when the comparator strictly
prefers it (`compareCandidates(candidate, best) < 0`). -/
noncomputable def betterOf (cand : CandidateScore) :
    Option CandidateScore → Option CandidateScore
  | none => some cand
  | some b => if compareCandidates cand b < 0 then some cand else some b

/-- Process one capacitor pair: update `bestOverall` always and
`bestWithin` when the candidate's relative error is within tolerance. -/
noncomputable def considerPair (fTarget r50 tol : ℝ) (st : SearchState)
    (p : ℚ × ℚ) : SearchState :=
  match createCandidate p.1 p.2 fTarget r50 with
  | none => st
  | some cand =>
    { bestOverall := betterOf cand st.bestOverall,
      bestWithin :=
        if cand.relErr ≤ tol then betterOf cand st.bestWithin
        else st.bestWithin }

/-- The pairs enumerated by one widening pass: both decades range over the
first `count` entries of the decade order, and the pair loops range over
those decades' value lists. -/
def pairsForCount (vals : List (ℤ × List ℚ)) (order : List ℤ)
    (count : ℕ) : List (ℚ × ℚ) :=
  (order.take count).flatMap fun d1 =>
    (order.take count).flatMap fun d2 =>
      (lookupDecade vals d1).flatMap fun a =>
        (lookupDecade vals d2).map fun b => (a, b)

/-- Run one pass over the given pairs. -/
noncomputable def runPairs (fTarget r50 tol : ℝ) (ps : List (ℚ × ℚ))
    (st : SearchState) : SearchState :=
  ps.foldl (considerPair fTarget r50 tol) st

/-- The widening pass loop of `pickE6CapsForF50`: run passes at
`count, count+1, ...` for `fuel` passes, stopping early as soon as a pass
ends with a within-tolerance best. -/
noncomputable def searchPasses (fTarget r50 tol : ℝ)
    (vals : List (ℤ × List ℚ)) (order : List ℤ) :
    ℕ → ℕ → SearchState → SearchState
  | 0, _, st => st
  | fuel + 1, count, st =>
    let st' := runPairs fTarget r50 tol (pairsForCount vals order count) st
    if st'.bestWithin.isSome then st'
    else searchPasses fTarget r50 tol vals order fuel (count + 1) st'

/-- The result record of `pickE6CapsForF50`. -/
structure PickedCapacitors where
  c1 : ℚ
  c2 : ℚ
  q : ℝ
  f50 : ℝ
  relErr : ℝ
  withinTolerance : Prop

/-- `pickE6CapsForF50` from `src/lib/sklp_equal_pot/solve.ts`: validate the
target and potentiometer, run the expanding-decade search, and report the
within-tolerance best if one was found, otherwise the overall best, flagged
with whether it met the tolerance. -/
noncomputable def pickE6CapsForF50 (fTarget rPotMax : ℝ) (cBase : Option ℚ)
    (tolerance : ℝ) : Option PickedCapacitors :=
  if fTarget ≤ 0 then none
  else if rPotMax ≤ 0 then none
  else
    let r50 := 0.5 * rPotMax
    if r50 ≤ 0 then none
    else
      let vals := buildCapacitorValues
      if vals.isEmpty then none
      else
        let order := sortedDecades vals cBase
        let final :=
          searchPasses fTarget r50 tolerance vals order order.length 1
            ⟨none, none⟩
        match final.bestWithin.orElse fun _ => final.bestOverall with
        | none => none
        | some chosen =>
          some
            { c1 := chosen.c1, c2 := chosen.c2, q := chosen.q,
              f50 := chosen.f50, relErr := chosen.relErr,
              withinTolerance := chosen.relErr ≤ tolerance }

end SklpEqualPot

namespace SklpEqualPot

/-- All capacitor values available to the search, across all decades. -/
def allCapValues : List ℚ := buildCapacitorValues.flatMap Prod.snd

/-- A score that arose from some enumerable capacitor pair. -/
def IsCandidate (fTarget r50 : ℝ) (c : CandidateScore) : Prop :=
  ∃ c1 c2 : ℚ, c1 ∈ allCapValues ∧ c2 ∈ allCapValues ∧
    createCandidate c1 c2 fTarget r50 = some c

/-- The search-state invariant: both bests are scores of enumerable pairs,
and the within-tolerance best meets the tolerance. -/
def StateInv (fTarget r50 tol : ℝ) (st : SearchState) : Prop :=
  (∀ c, st.bestOverall = some c → IsCandidate fTarget r50 c) ∧
  (∀ c, st.bestWithin = some c → IsCandidate fTarget r50 c ∧ c.relErr ≤ tol)

/-- Values found through `lookupDecade` are values of the decade map. -/
theorem lookupDecade_subset (vals : List (ℤ × List ℚ)) (d : ℤ) (a : ℚ)
    (ha : a ∈ lookupDecade vals d) : a ∈ vals.flatMap Prod.snd := by
  rw [lookupDecade] at ha
  rcases hf : vals.find? fun p => p.1 == d with _ | entry
  · rw [hf] at ha
    exact nomatch ha
  · rw [hf] at ha
    have hmem := List.mem_of_find?_eq_some hf
    exact List.mem_flatMap.mpr ⟨entry, hmem, ha⟩

/-- Pairs of a widening pass draw both values from the decade map. -/
theorem pairsForCount_subset (vals : List (ℤ × List ℚ)) (order : List ℤ)
    (count : ℕ) (p : ℚ × ℚ) (hp : p ∈ pairsForCount vals order count) :
    p.1 ∈ vals.flatMap Prod.snd ∧ p.2 ∈ vals.flatMap Prod.snd := by
  rw [pairsForCount] at hp
  simp only [List.mem_flatMap, List.mem_map] at hp
  obtain ⟨d1, _, d2, _, a, ha, b, hb, rfl⟩ := hp
  exact ⟨lookupDecade_subset vals d1 a ha, lookupDecade_subset vals d2 b hb⟩

/-- One step preserves the state invariant. -/
theorem considerPair_inv (fTarget r50 tol : ℝ) (st : SearchState)
    (p : ℚ × ℚ) (hp1 : p.1 ∈ allCapValues) (hp2 : p.2 ∈ allCapValues)
    (hst : StateInv fTarget r50 tol st) :
    StateInv fTarget r50 tol (considerPair fTarget r50 tol st p) := by
  rw [considerPair]
  rcases hcc : createCandidate p.1 p.2 fTarget r50 with _ | cand
  · exact hst
  · have hcand : IsCandidate fTarget r50 cand := ⟨p.1, p.2, hp1, hp2, hcc⟩
    constructor
    · intro c hc
      dsimp only at hc
      rcases hbo : st.bestOverall with _ | b
      · rw [hbo, betterOf] at hc
        cases hc
        exact hcand
      · rw [hbo, betterOf] at hc
        split_ifs at hc
        · cases hc
          exact hcand
        · cases hc
          exact hst.1 _ hbo
    · intro c hc
      dsimp only at hc
      split_ifs at hc with hrel
      · rcases hbw : st.bestWithin with _ | b
        · rw [hbw, betterOf] at hc
          cases hc
          exact ⟨hcand, hrel⟩
        · rw [hbw, betterOf] at hc
          split_ifs at hc
          · cases hc
            exact ⟨hcand, hrel⟩
          · cases hc
            exact hst.2 _ hbw
      · exact hst.2 _ hc

/-- A whole pass preserves the state invariant. -/
theorem runPairs_inv (fTarget r50 tol : ℝ) (ps : List (ℚ × ℚ))
    (hps : ∀ p ∈ ps, p.1 ∈ allCapValues ∧ p.2 ∈ allCapValues)
    (st : SearchState) (hst : StateInv fTarget r50 tol st) :
    StateInv fTarget r50 tol (runPairs fTarget r50 tol ps st) := by
  rw [runPairs]
  induction ps generalizing st with
  | nil => exact hst
  | cons hd tl ih =>
    rw [List.foldl_cons]
    have hhd := hps hd (List.mem_cons_self hd tl)
    exact ih (fun p hp => hps p (List.mem_cons_of_mem hd hp)) _
      (considerPair_inv fTarget r50 tol st hd hhd.1 hhd.2 hst)

/-- The pass loop preserves the state invariant. -/
theorem searchPasses_inv (fTarget r50 tol : ℝ) (vals : List (ℤ × List ℚ))
    (hvals : vals.flatMap Prod.snd = allCapValues) (order : List ℤ)
    (fuel count : ℕ) (st : SearchState)
    (hst : StateInv fTarget r50 tol st) :
    StateInv fTarget r50 tol
      (searchPasses fTarget r50 tol vals order fuel count st) := by
  induction fuel generalizing count st with
  | zero => exact hst
  | succ f ih =>
    rw [searchPasses]
    have hps : ∀ p ∈ pairsForCount vals order count,
        p.1 ∈ allCapValues ∧ p.2 ∈ allCapValues := by
      intro p hp
      have := pairsForCount_subset vals order count p hp
      rw [hvals] at this
      exact this
    have hst' := runPairs_inv fTarget r50 tol _ hps st hst
    split_ifs
    · exact hst'
    · exact ih (count + 1) _ hst'

end SklpEqualPot

namespace SklpEqualPot

/-- `betterOf` never discards both contenders. -/
theorem betterOf_isSome (cand : CandidateScore) (cur : Option CandidateScore) :
    (betterOf cand cur).isSome := by
  cases cur with
  | none => rfl
  | some b =>
    rw [betterOf]
    split_ifs <;> rfl

/-- One step never loses an overall best. -/
theorem considerPair_overall_some (fTarget r50 tol : ℝ) (st : SearchState)
    (p : ℚ × ℚ) (h : st.bestOverall.isSome) :
    ((considerPair fTarget r50 tol st p).bestOverall).isSome := by
  rw [considerPair]
  rcases createCandidate p.1 p.2 fTarget r50 with _ | cand
  · exact h
  · exact betterOf_isSome cand st.bestOverall

/-- One step never loses a within-tolerance best. -/
theorem considerPair_within_some (fTarget r50 tol : ℝ) (st : SearchState)
    (p : ℚ × ℚ) (h : st.bestWithin.isSome) :
    ((considerPair fTarget r50 tol st p).bestWithin).isSome := by
  rw [considerPair]
  rcases createCandidate p.1 p.2 fTarget r50 with _ | cand
  · exact h
  · dsimp only
    split_ifs
    · exact betterOf_isSome cand st.bestWithin
    · exact h

/-- A pass never loses an overall best. -/
theorem runPairs_overall_mono (fTarget r50 tol : ℝ) (ps : List (ℚ × ℚ))
    (st : SearchState) (h : st.bestOverall.isSome) :
    ((runPairs fTarget r50 tol ps st).bestOverall).isSome := by
  rw [runPairs]
  induction ps generalizing st with
  | nil => exact h
  | cons hd tl ih =>
    rw [List.foldl_cons]
    exact ih _ (considerPair_overall_some fTarget r50 tol st hd h)

/-- A pass never loses a within-tolerance best. -/
theorem runPairs_within_mono (fTarget r50 tol : ℝ) (ps : List (ℚ × ℚ))
    (st : SearchState) (h : st.bestWithin.isSome) :
    ((runPairs fTarget r50 tol ps st).bestWithin).isSome := by
  rw [runPairs]
  induction ps generalizing st with
  | nil => exact h
  | cons hd tl ih =>
    rw [List.foldl_cons]
    exact ih _ (considerPair_within_some fTarget r50 tol st hd h)

/-- A pass containing a scorable pair ends with an overall best. -/
theorem runPairs_overall_of_mem (fTarget r50 tol : ℝ) (ps : List (ℚ × ℚ))
    (st : SearchState)
    (h : ∃ p ∈ ps, (createCandidate p.1 p.2 fTarget r50).isSome) :
    ((runPairs fTarget r50 tol ps st).bestOverall).isSome := by
  rw [runPairs]
  induction ps generalizing st with
  | nil =>
    obtain ⟨p, hp, _⟩ := h
    exact absurd hp (List.not_mem_nil p)
  | cons hd tl ih =>
    rw [List.foldl_cons]
    obtain ⟨p, hp, hcc⟩ := h
    rcases List.mem_cons.mp hp with rfl | htl
    · have hsome : ((considerPair fTarget r50 tol st p).bestOverall).isSome := by
        rw [considerPair]
        rcases hc : createCandidate p.1 p.2 fTarget r50 with _ | cand
        · rw [hc] at hcc
          exact absurd hcc (by simp)
        · exact betterOf_isSome cand st.bestOverall
      exact runPairs_overall_mono fTarget r50 tol tl _ hsome
    · exact ih _ ⟨p, htl, hcc⟩

/-- A pass containing a within-tolerance pair ends with a
within-tolerance best. -/
theorem runPairs_within_of_mem (fTarget r50 tol : ℝ) (ps : List (ℚ × ℚ))
    (st : SearchState)
    (h : ∃ p ∈ ps, ∃ cand, createCandidate p.1 p.2 fTarget r50 = some cand ∧
      cand.relErr ≤ tol) :
    ((runPairs fTarget r50 tol ps st).bestWithin).isSome := by
  rw [runPairs]
  induction ps generalizing st with
  | nil =>
    obtain ⟨p, hp, _⟩ := h
    exact absurd hp (List.not_mem_nil p)
  | cons hd tl ih =>
    rw [List.foldl_cons]
    obtain ⟨p, hp, cand, hcc, hrel⟩ := h
    rcases List.mem_cons.mp hp with rfl | htl
    · have hsome : ((considerPair fTarget r50 tol st p).bestWithin).isSome := by
        rw [considerPair, hcc]
        dsimp only
        rw [if_pos hrel]
        exact betterOf_isSome cand st.bestWithin
      exact runPairs_within_mono fTarget r50 tol tl _ hsome
    · exact ih _ ⟨p, htl, cand, hcc, hrel⟩

/-- The pass loop never loses an overall best. -/
theorem searchPasses_overall_mono (fTarget r50 tol : ℝ)
    (vals : List (ℤ × List ℚ)) (order : List ℤ) (fuel count : ℕ)
    (st : SearchState) (h : st.bestOverall.isSome) :
    ((searchPasses fTarget r50 tol vals order fuel count st).bestOverall).isSome := by
  induction fuel generalizing count st with
  | zero => exact h
  | succ f ih =>
    rw [searchPasses]
    split_ifs
    · exact runPairs_overall_mono fTarget r50 tol _ st h
    · exact ih (count + 1) _ (runPairs_overall_mono fTarget r50 tol _ st h)

/-- When the full window contains a within-tolerance pair, the pass loop
ends with a within-tolerance best: either some earlier pass found one and
the loop stopped there, or the final pass enumerated the full window. -/
theorem searchPasses_within_of_mem (fTarget r50 tol : ℝ)
    (vals : List (ℤ × List ℚ)) (order : List ℤ) (fuel count : ℕ)
    (st : SearchState) (hcf : count + fuel = order.length + 1) (hfuel : 1 ≤ fuel)
    (h : ∃ p ∈ pairsForCount vals order order.length,
      ∃ cand, createCandidate p.1 p.2 fTarget r50 = some cand ∧
        cand.relErr ≤ tol) :
    ((searchPasses fTarget r50 tol vals order fuel count st).bestWithin).isSome := by
  induction fuel generalizing count st with
  | zero => omega
  | succ f ih =>
    rw [searchPasses]
    split_ifs with hbw
    · exact hbw
    · rcases Nat.eq_zero_or_pos f with rfl | hf
      · have hcount : count = order.length := by omega
        subst hcount
        exact absurd (runPairs_within_of_mem fTarget r50 tol _ st h) hbw
      · exact ih (count + 1) _ (by omega) hf

end SklpEqualPot

namespace SklpEqualPot

/-- On positive inputs `createCandidate` always scores the pair, with the
operating frequency `1 / (2 pi r50 sqrt(c1 c2))`. -/
theorem createCandidate_pos_eq (c1 c2 : ℚ) (fTarget r50 : ℝ)
    (hf : 0 < fTarget) (hr : 0 < r50) (h1 : 0 < c1) (h2 : 0 < c2) :
    createCandidate c1 c2 fTarget r50 =
      some
        { c1 := c1, c2 := c2,
          f50 := 1 / (2 * Real.pi * r50 * Real.sqrt ((c1 : ℝ) * (c2 : ℝ))),
          q := 0.5 * Real.sqrt ((c1 : ℝ) / (c2 : ℝ)),
          relErr := |1 / (2 * Real.pi * r50 * Real.sqrt ((c1 : ℝ) * (c2 : ℝ))) -
            fTarget| / fTarget,
          logError := |Real.log
            ((1 / (2 * Real.pi * r50 * Real.sqrt ((c1 : ℝ) * (c2 : ℝ)))) / fTarget)|,
          qPenalty := |0.5 * Real.sqrt ((c1 : ℝ) / (c2 : ℝ)) - TARGET_Q|,
          totalCapacitance := (c1 : ℝ) + (c2 : ℝ),
          spread := max (c1 : ℝ) (c2 : ℝ) / min (c1 : ℝ) (c2 : ℝ) } := by
  have h1R : (0 : ℝ) < (c1 : ℝ) := by exact_mod_cast h1
  have h2R : (0 : ℝ) < (c2 : ℝ) := by exact_mod_cast h2
  have hpi : (0 : ℝ) < Real.pi := Real.pi_pos
  have hsq : (0 : ℝ) < Real.sqrt ((c1 : ℝ) * (c2 : ℝ)) :=
    Real.sqrt_pos.mpr (by positivity)
  have hf50 : (0 : ℝ) < 1 / (2 * Real.pi * r50 * Real.sqrt ((c1 : ℝ) * (c2 : ℝ))) := by
    positivity
  rw [createCandidate, fcFromRRC, qFromCaps,
    if_neg (by push_neg; exact ⟨hr, h1R, h2R⟩),
    if_neg (by push_neg; exact ⟨h1R, h2R⟩)]
  dsimp only
  rw [if_neg (by push_neg; exact ⟨hf50, hf⟩)]

/-- Every value of the decade map lies within the configured window (and in
particular is positive). -/
theorem allCapValues_bounds (v : ℚ) (hv : v ∈ allCapValues) :
    DEFAULT_MIN_CAPACITANCE ≤ v ∧ v ≤ DEFAULT_MAX_CAPACITANCE := by
  rw [allCapValues] at hv
  obtain ⟨entry, hentry, hvin⟩ := List.mem_flatMap.mp hv
  rw [buildCapacitorValues] at hentry
  obtain ⟨hmem, _⟩ := List.mem_filter.mp hentry
  obtain ⟨d, _, rfl⟩ := List.mem_map.mp hmem
  rw [decadeValues] at hvin
  obtain ⟨m, _, hcond⟩ := List.mem_filterMap.mp hvin
  dsimp only at hcond
  split_ifs at hcond with hrange
  obtain rfl : m * (10 : ℚ) ^ d = v := Option.some_injective _ hcond
  exact hrange

/-- Every value of the decade map is positive. -/
theorem allCapValues_pos (v : ℚ) (hv : v ∈ allCapValues) : 0 < v :=
  lt_of_lt_of_le (by norm_num [DEFAULT_MIN_CAPACITANCE])
    (allCapValues_bounds v hv).1

/-- The decade map keys are duplicate-free. -/
theorem buildCapacitorValues_keys_nodup :
    (buildCapacitorValues.map Prod.fst).Nodup := by
  have hpot : potDecades.Nodup := by decide
  have hsub : List.Sublist (buildCapacitorValues.map Prod.fst)
      ((potDecades.map fun d => (d, decadeValues d)).map Prod.fst) :=
    List.Sublist.map Prod.fst (List.filter_sublist _)
  have heq : ((potDecades.map fun d => (d, decadeValues d)).map Prod.fst) =
      potDecades := by
    rw [List.map_map]
    rfl
  rw [heq] at hsub
  exact hpot.sublist hsub

end SklpEqualPot

namespace SklpEqualPot

/-- With duplicate-free keys, `lookupDecade` returns the decade's list. -/
theorem lookupDecade_eq (vals : List (ℤ × List ℚ))
    (hnd : (vals.map Prod.fst).Nodup) (d : ℤ) (l : List ℚ)
    (h : (d, l) ∈ vals) : lookupDecade vals d = l := by
  induction vals with
  | nil => cases h
  | cons hd tl ih =>
    rw [lookupDecade]
    rcases List.mem_cons.mp h with heq | htl
    · rw [List.find?_cons_of_pos _ (by rw [← heq]; exact beq_self_eq_true d)]
      rw [← heq]
      rfl
    · have hne : hd.1 ≠ d := by
        intro he
        apply (List.nodup_cons.mp hnd).1
        rw [he]
        exact List.mem_map.mpr ⟨(d, l), htl, rfl⟩
      rw [List.find?_cons_of_neg _ (by simp [hne])]
      exact ih (List.nodup_cons.mp hnd).2 htl

/-- Membership in the decade order is membership among the map's keys. -/
theorem mem_sortedDecades (vals : List (ℤ × List ℚ)) (cBase : Option ℚ)
    (d : ℤ) :
    d ∈ sortedDecades vals cBase ↔ d ∈ vals.map Prod.fst := by
  cases cBase with
  | none => exact (List.perm_insertionSort _ _).mem_iff
  | some cb =>
    rw [sortedDecades]
    split_ifs
    · exact (List.perm_insertionSort _ _).mem_iff
    · exact ((List.perm_insertionSort _ _).trans
        (List.perm_insertionSort _ _)).mem_iff

/-- The final pass enumerates every pair of values of the decade map. -/
theorem pairsForCount_full (vals : List (ℤ × List ℚ))
    (hnd : (vals.map Prod.fst).Nodup) (order : List ℤ)
    (hord : ∀ d, d ∈ order ↔ d ∈ vals.map Prod.fst) (a b : ℚ)
    (ha : a ∈ vals.flatMap Prod.snd) (hb : b ∈ vals.flatMap Prod.snd) :
    (a, b) ∈ pairsForCount vals order order.length := by
  rw [pairsForCount, List.take_length]
  obtain ⟨ea, hea, hain⟩ := List.mem_flatMap.mp ha
  obtain ⟨eb, heb, hbin⟩ := List.mem_flatMap.mp hb
  obtain ⟨da, la⟩ := ea
  obtain ⟨db, lb⟩ := eb
  have hda : da ∈ order := (hord da).mpr (List.mem_map.mpr ⟨(da, la), hea, rfl⟩)
  have hdb : db ∈ order := (hord db).mpr (List.mem_map.mpr ⟨(db, lb), heb, rfl⟩)
  have hla : lookupDecade vals da = la := lookupDecade_eq vals hnd da la hea
  have hlb : lookupDecade vals db = lb := lookupDecade_eq vals hnd db lb heb
  simp only [List.mem_flatMap, List.mem_map]
  exact ⟨da, hda, db, hdb, a, by rw [hla]; exact hain,
    b, by rw [hlb]; exact hbin, rfl⟩

/-- Every entry of the decade map has a non-empty value list. -/
theorem buildCapacitorValues_snd_ne_nil (entry : ℤ × List ℚ)
    (h : entry ∈ buildCapacitorValues) : entry.2 ≠ [] := by
  rw [buildCapacitorValues] at h
  have hcond := (List.mem_filter.mp h).2
  intro hnil
  rw [hnil] at hcond
  simp at hcond

/-- The 10 pF decade is present in the decade map. -/
theorem buildCapacitorValues_has_lowest :
    ((-11 : ℤ), decadeValues (-11)) ∈ buildCapacitorValues := by
  have hval : (1 : ℚ) * (10 : ℚ) ^ (-11 : ℤ) ∈ decadeValues (-11) := by
    rw [decadeValues]
    apply List.mem_filterMap.mpr
    refine ⟨1, by norm_num [E6_SERIES], ?_⟩
    rw [if_pos]
    constructor <;>
      norm_num [DEFAULT_MIN_CAPACITANCE, DEFAULT_MAX_CAPACITANCE]
  rw [buildCapacitorValues]
  apply List.mem_filter.mpr
  refine ⟨List.mem_map.mpr ⟨-11, by decide, rfl⟩, ?_⟩
  have hne : decadeValues (-11) ≠ [] := List.ne_nil_of_mem hval
  simp [hne]

/-- The decade map is non-empty. -/
theorem buildCapacitorValues_not_isEmpty :
    buildCapacitorValues.isEmpty = false := by
  have := List.ne_nil_of_mem buildCapacitorValues_has_lowest
  cases hb : buildCapacitorValues with
  | nil => exact absurd hb this
  | cons hd tl => rfl

end SklpEqualPot

namespace SklpEqualPot

/-- The first widening pass already enumerates at least one pair. -/
theorem pass1_pair_exists (order : List ℤ)
    (hord : ∀ d, d ∈ order ↔ d ∈ buildCapacitorValues.map Prod.fst)
    (hne : order ≠ []) :
    ∃ p ∈ pairsForCount buildCapacitorValues order 1,
      p.1 ∈ allCapValues ∧ p.2 ∈ allCapValues := by
  obtain ⟨d0, rest, rfl⟩ := List.exists_cons_of_ne_nil hne
  have hd0 : d0 ∈ buildCapacitorValues.map Prod.fst :=
    (hord d0).mp (List.mem_cons_self d0 rest)
  obtain ⟨entry, hentry, hfst⟩ := List.mem_map.mp hd0
  have hlook : lookupDecade buildCapacitorValues d0 = entry.2 := by
    apply lookupDecade_eq buildCapacitorValues buildCapacitorValues_keys_nodup
    rw [← hfst]
    rw [Prod.mk.eta]
    exact hentry
  have hlne : entry.2 ≠ [] := buildCapacitorValues_snd_ne_nil entry hentry
  obtain ⟨a, rest2, hl⟩ := List.exists_cons_of_ne_nil hlne
  have hamem : a ∈ entry.2 := by
    rw [hl]
    exact List.mem_cons_self a rest2
  have hain : a ∈ allCapValues := by
    rw [allCapValues]
    exact List.mem_flatMap.mpr ⟨entry, hentry, hamem⟩
  refine ⟨(a, a), ?_, hain, hain⟩
  rw [pairsForCount]
  simp only [List.mem_flatMap, List.mem_map, List.take_succ_cons, List.take_zero]
  exact ⟨d0, List.mem_cons_self d0 [], d0, List.mem_cons_self d0 [],
    a, by rw [hlook]; exact hamem,
    a, by rw [hlook]; exact hamem, rfl⟩

/-- C5: for every positive target and potentiometer, `pickE6CapsForF50`
returns a selection, and its `withinTolerance` flag holds exactly when some
enumerable capacitor pair meets the relative tolerance at the 50 percent
potentiometer point. -/
theorem pickE6CapsForF50_total (fTarget rPotMax tol : ℝ) (cBase : Option ℚ)
    (hf : 0 < fTarget) (hr : 0 < rPotMax) :
    ∃ res, pickE6CapsForF50 fTarget rPotMax cBase tol = some res ∧
      (res.withinTolerance ↔
        ∃ c1 c2 cand, c1 ∈ allCapValues ∧ c2 ∈ allCapValues ∧
          createCandidate c1 c2 fTarget (0.5 * rPotMax) = some cand ∧
          cand.relErr ≤ tol) := by
  have hr50 : (0 : ℝ) < 0.5 * rPotMax := by linarith
  have hnd := buildCapacitorValues_keys_nodup
  have hord := mem_sortedDecades buildCapacitorValues cBase
  have hone : (-11 : ℤ) ∈ sortedDecades buildCapacitorValues cBase :=
    (hord (-11)).mpr
      (List.mem_map.mpr ⟨_, buildCapacitorValues_has_lowest, rfl⟩)
  have hordne : sortedDecades buildCapacitorValues cBase ≠ [] :=
    List.ne_nil_of_mem hone
  have hlen : 1 ≤ (sortedDecades buildCapacitorValues cBase).length :=
    List.length_pos.mpr hordne
  have hinv : StateInv fTarget (0.5 * rPotMax) tol
      (searchPasses fTarget (0.5 * rPotMax) tol buildCapacitorValues
        (sortedDecades buildCapacitorValues cBase)
        (sortedDecades buildCapacitorValues cBase).length 1 ⟨none, none⟩) :=
    searchPasses_inv fTarget (0.5 * rPotMax) tol buildCapacitorValues rfl
      (sortedDecades buildCapacitorValues cBase) _ 1 ⟨none, none⟩
      (by constructor <;> intro c hc <;> exact nomatch hc)
  have hov : ((searchPasses fTarget (0.5 * rPotMax) tol buildCapacitorValues
      (sortedDecades buildCapacitorValues cBase)
      (sortedDecades buildCapacitorValues cBase).length 1
      ⟨none, none⟩).bestOverall).isSome := by
    obtain ⟨f, hfn⟩ : ∃ f, (sortedDecades buildCapacitorValues cBase).length =
        f + 1 := ⟨(sortedDecades buildCapacitorValues cBase).length - 1, by omega⟩
    rw [hfn, searchPasses]
    obtain ⟨p, hp, hp1, hp2⟩ :=
      pass1_pair_exists (sortedDecades buildCapacitorValues cBase) hord hordne
    have hcsome : (createCandidate p.1 p.2 fTarget (0.5 * rPotMax)).isSome := by
      rw [createCandidate_pos_eq p.1 p.2 fTarget (0.5 * rPotMax) hf hr50
        (allCapValues_pos p.1 hp1) (allCapValues_pos p.2 hp2)]
      rfl
    have hrun := runPairs_overall_of_mem fTarget (0.5 * rPotMax) tol
      (pairsForCount buildCapacitorValues
        (sortedDecades buildCapacitorValues cBase) 1)
      ⟨none, none⟩ ⟨p, hp, hcsome⟩
    split_ifs
    · exact hrun
    · exact searchPasses_overall_mono fTarget (0.5 * rPotMax) tol
        buildCapacitorValues (sortedDecades buildCapacitorValues cBase) f 2 _ hrun
  rw [pickE6CapsForF50]
  rw [if_neg (not_le.mpr hf), if_neg (not_le.mpr hr)]
  dsimp only
  rw [if_neg (not_le.mpr hr50),
    if_neg (by rw [buildCapacitorValues_not_isEmpty]; exact Bool.false_ne_true)]
  rcases hbw : (searchPasses fTarget (0.5 * rPotMax) tol buildCapacitorValues
      (sortedDecades buildCapacitorValues cBase)
      (sortedDecades buildCapacitorValues cBase).length 1
      ⟨none, none⟩).bestWithin with _ | chosen
  · rcases hbo : (searchPasses fTarget (0.5 * rPotMax) tol buildCapacitorValues
        (sortedDecades buildCapacitorValues cBase)
        (sortedDecades buildCapacitorValues cBase).length 1
        ⟨none, none⟩).bestOverall with _ | c
    · rw [hbo] at hov
      exact absurd hov (by simp)
    · rw [Option.none_orElse']
      refine ⟨_, rfl, ?_⟩
      dsimp only
      obtain ⟨c1w, c2w, hm1, hm2, hcc⟩ := hinv.1 c hbo
      constructor
      · intro hflag
        exact ⟨c1w, c2w, c, hm1, hm2, hcc, hflag⟩
      · intro hex
        exfalso
        obtain ⟨c1x, c2x, cand, hx1, hx2, hxc, hxrel⟩ := hex
        have hpair : (c1x, c2x) ∈ pairsForCount buildCapacitorValues
            (sortedDecades buildCapacitorValues cBase)
            (sortedDecades buildCapacitorValues cBase).length :=
          pairsForCount_full buildCapacitorValues hnd
            (sortedDecades buildCapacitorValues cBase) hord c1x c2x hx1 hx2
        have hsome := searchPasses_within_of_mem fTarget (0.5 * rPotMax) tol
          buildCapacitorValues (sortedDecades buildCapacitorValues cBase)
          (sortedDecades buildCapacitorValues cBase).length 1 ⟨none, none⟩
          (by omega) hlen ⟨(c1x, c2x), hpair, cand, hxc, hxrel⟩
        rw [hbw] at hsome
        exact absurd hsome (by simp)
  · rw [Option.some_orElse']
    refine ⟨_, rfl, ?_⟩
    dsimp only
    obtain ⟨⟨c1w, c2w, hm1, hm2, hcc⟩, hrel⟩ := hinv.2 chosen hbw
    constructor
    · intro _
      exact ⟨c1w, c2w, chosen, hm1, hm2, hcc, hrel⟩
    · intro _
      exact hrel

end SklpEqualPot

namespace SklpEqualPot

/-- Witness for C5, which is also the spec's out-of-window example: at
`fTarget = 5 MHz` with a 10 kOhm potentiometer no enumerable pair comes
within 2 percent, so the search returns a result flagged out of tolerance
rather than no result. -/
theorem pickE6CapsForF50_total_witness :
    ∃ res, pickE6CapsForF50 5000000 10000 none DEFAULT_RELATIVE_TOLERANCE =
      some res ∧ ¬res.withinTolerance := by
  obtain ⟨res, hres, hiff⟩ := pickE6CapsForF50_total 5000000 10000
    DEFAULT_RELATIVE_TOLERANCE none (by norm_num) (by norm_num)
  refine ⟨res, hres, ?_⟩
  rw [hiff]
  rintro ⟨c1, c2, cand, h1, h2, hcc, hrel⟩
  have hp1 : (0 : ℚ) < c1 := allCapValues_pos c1 h1
  have hp2 : (0 : ℚ) < c2 := allCapValues_pos c2 h2
  have hb1 : (1 / 100000000000 : ℚ) ≤ c1 := by
    have := (allCapValues_bounds c1 h1).1
    rw [show DEFAULT_MIN_CAPACITANCE = (1 / 100000000000 : ℚ) from by
      norm_num [DEFAULT_MIN_CAPACITANCE]] at this
    exact this
  have hb2 : (1 / 100000000000 : ℚ) ≤ c2 := by
    have := (allCapValues_bounds c2 h2).1
    rw [show DEFAULT_MIN_CAPACITANCE = (1 / 100000000000 : ℚ) from by
      norm_num [DEFAULT_MIN_CAPACITANCE]] at this
    exact this
  rw [createCandidate_pos_eq c1 c2 5000000 (0.5 * 10000) (by norm_num)
    (by norm_num) hp1 hp2] at hcc
  obtain rfl : _ = cand := Option.some_injective _ hcc
  dsimp only at hrel
  have hb1R : (1 / 100000000000 : ℝ) ≤ (c1 : ℝ) := by
    have h := (Rat.cast_le (K := ℝ)).mpr hb1
    push_cast at h
    exact h
  have hb2R : (1 / 100000000000 : ℝ) ≤ (c2 : ℝ) := by
    have h := (Rat.cast_le (K := ℝ)).mpr hb2
    push_cast at h
    exact h
  have hsq : (1 / 100000000000 : ℝ) ≤ Real.sqrt ((c1 : ℝ) * (c2 : ℝ)) := by
    rw [Real.le_sqrt (by norm_num) (by positivity)]
    nlinarith
  have hpi3 : (3 : ℝ) < Real.pi := Real.pi_gt_three
  set F := 1 / (2 * Real.pi * ((0.5 : ℝ) * 10000) *
    Real.sqrt ((c1 : ℝ) * (c2 : ℝ))) with hF
  have hden : (3e-7 : ℝ) ≤ 2 * Real.pi * ((0.5 : ℝ) * 10000) *
      Real.sqrt ((c1 : ℝ) * (c2 : ℝ)) := by
    nlinarith [Real.sqrt_nonneg ((c1 : ℝ) * (c2 : ℝ))]
  have hf50 : F ≤ 1 / (3e-7 : ℝ) := by
    rw [hF]
    exact one_div_le_one_div_of_le (by norm_num) hden
  have habs : (5000000 : ℝ) - F ≤ |F - 5000000| := by
    rw [abs_sub_comm]
    exact le_abs_self _
  have hdiv : |F - 5000000| ≤ DEFAULT_RELATIVE_TOLERANCE * 5000000 :=
    (div_le_iff₀ (by norm_num)).mp hrel
  rw [DEFAULT_RELATIVE_TOLERANCE] at hdiv
  have hc : (1 : ℝ) / (3e-7 : ℝ) < 4000000 := by norm_num
  linarith

end SklpEqualPot

namespace SklpEqualPot

/-- Modelled from the spec: the "geometric mean implied by the target" of
the expanding-decade search — the capacitance `sqrt(c1 c2)` that would hit
`fTarget` exactly at the 50 percent potentiometer point — and the decade it
falls in.  The code has no counterpart of this quantity; the spec claims the
seedless first pass is restricted to the decade nearest it. -/
noncomputable def specSeedDecadeFromTarget (fTarget rPotMax : ℝ) : ℤ :=
  ⌊Real.logb 10 (1 / (2 * Real.pi * (0.5 * rPotMax) * fTarget))⌋

/-- Every decade of the configured window is non-empty, so the decade map
keeps them all. -/
theorem buildCapacitorValues_keys_eq : buildCapacitorValues.map Prod.fst = potDecades := by
  have hfull : (potDecades.map fun d => (d, decadeValues d)).filter
      (fun p => !p.2.isEmpty) = potDecades.map fun d => (d, decadeValues d) := by
    apply List.filter_eq_self.mpr
    intro entry hentry
    obtain ⟨d, hd, rfl⟩ := List.mem_map.mp hentry
    have hmem : (1 : ℚ) * (10 : ℚ) ^ d ∈ decadeValues d := by
      rw [decadeValues]
      apply List.mem_filterMap.mpr
      refine ⟨1, by norm_num [E6_SERIES], ?_⟩
      rw [if_pos]
      fin_cases hd <;>
        constructor <;>
          norm_num [DEFAULT_MIN_CAPACITANCE, DEFAULT_MAX_CAPACITANCE]
    have hne : decadeValues d ≠ [] := List.ne_nil_of_mem hmem
    simp [hne]
  rw [buildCapacitorValues, hfull, List.map_map]
  rfl

/-- C6 counterexample: with no seed the first (most restricted) search pass
uses the lowest decade of the window (`10 pF`, decade `-11`) for every
target, while for the spec's in-window example `fTarget = 1000 Hz,
rPotMax = 46.8 kOhm` the decade nearest the implied geometric mean is `-9`. -/
theorem sortedDecades_no_seed_cex :
    (sortedDecades buildCapacitorValues none).head? = some (-11) ∧
      specSeedDecadeFromTarget 1000 46800 = -9 ∧ ((-11 : ℤ) ≠ -9) := by
  refine ⟨?_, ?_, by decide⟩
  · rw [sortedDecades, buildCapacitorValues_keys_eq,
      List.Sorted.insertionSort_eq (by decide : potDecades.Sorted (· ≤ ·))]
    rfl
  · rw [specSeedDecadeFromTarget]
    have hpi3 : (3 : ℝ) < Real.pi := Real.pi_gt_three
    have hpi4 : Real.pi < 3.15 := Real.pi_lt_d2
    have hx : (0 : ℝ) < 1 / (2 * Real.pi * (0.5 * 46800) * 1000) := by
      positivity
    apply Int.floor_eq_iff.mpr
    constructor
    · rw [show ((-9 : ℤ) : ℝ) = ((-9 : ℝ) : ℝ) from by norm_num,
        Real.le_logb_iff_rpow_le (by norm_num) hx]
      rw [show ((10 : ℝ) ^ (-9 : ℝ)) = 1 / 10 ^ 9 from by
        rw [show ((-9 : ℝ)) = ((-9 : ℤ) : ℝ) from by norm_num, Real.rpow_intCast]
        norm_num]
      rw [div_le_div_iff₀ (by norm_num) (by positivity)]
      nlinarith
    · rw [show ((-9 : ℤ) : ℝ) + 1 = (-8 : ℝ) from by norm_num,
        Real.logb_lt_iff_lt_rpow (by norm_num) hx]
      rw [show ((10 : ℝ) ^ (-8 : ℝ)) = 1 / 10 ^ 8 from by
        rw [show ((-8 : ℝ)) = ((-8 : ℤ) : ℝ) from by norm_num, Real.rpow_intCast]
        norm_num]
      rw [div_lt_div_iff₀ (by positivity) (by norm_num)]
      nlinarith

end SklpEqualPot

namespace SklpEqualPot

instance (base : ℤ) : IsTotal ℤ (distRel base) := by
  constructor
  intro d e
  simp only [distRel]
  revert d e
  intro d e
  generalize |d - base| = A
  generalize |e - base| = B
  omega

instance (base : ℤ) : IsTrans ℤ (distRel base) := by
  constructor
  intro d e f hde hef
  simp only [distRel] at hde hef ⊢
  revert hde hef
  generalize |d - base| = A
  generalize |e - base| = B
  generalize |f - base| = C
  omega

/-- A shorter prefix of a list is contained in a longer one. -/
theorem take_subset_take {α : Type} (l : List α) (m n : ℕ) (h : m ≤ n) :
    l.take m ⊆ l.take n := by
  intro a ha
  have hmm : l.take m = (l.take n).take m := by
    rw [List.take_take, Nat.min_eq_left h]
  rw [hmm] at ha
  exact List.take_subset _ _ ha

end SklpEqualPot

namespace SklpEqualPot

/-- C6 (amended): the expanding-decade search of `pickE6CapsForF50` works
through a decade order that is plain ascending when no seed is given — so
the seedless first pass always starts at the lowest decade of the window
(`-11`, the 10 pF decade), not at the decade implied by the target — and is
sorted by distance from the seed's decade `Int.log 10 cb` (ties to the
smaller decade) when a positive seed is given; pass `count` enumerates all
pairs drawn from the first `count` decades of that order, so each pass
widens the allowed set by exactly one decade; and the pass loop stops as
soon as a pass ends with a within-tolerance best, returning that state. -/
theorem expandingDecadeSearch_order_widen_stop (cb : ℚ) (hcb : 0 < cb)
    (vals : List (ℤ × List ℚ)) (order : List ℤ) (count fuel : ℕ)
    (fTarget r50 tol : ℝ) (st : SearchState) (p : ℚ × ℚ) :
    sortedDecades buildCapacitorValues none = potDecades ∧
    (sortedDecades vals none).Sorted (· ≤ ·) ∧
    (sortedDecades vals (some cb)).Sorted (distRel (Int.log 10 cb)) ∧
    (p ∈ pairsForCount vals order count → p ∈ pairsForCount vals order (count + 1)) ∧
    ((runPairs fTarget r50 tol (pairsForCount vals order count) st).bestWithin.isSome →
      searchPasses fTarget r50 tol vals order (fuel + 1) count st =
        runPairs fTarget r50 tol (pairsForCount vals order count) st) := by
  refine ⟨?_, ?_, ?_, ?_, ?_⟩
  · rw [sortedDecades, buildCapacitorValues_keys_eq,
      List.Sorted.insertionSort_eq (by decide : potDecades.Sorted (· ≤ ·))]
  · rw [sortedDecades]
    exact List.sorted_insertionSort _ _
  · rw [sortedDecades, if_neg (by exact not_le.mpr hcb)]
    exact List.sorted_insertionSort _ _
  · intro hp
    simp only [pairsForCount, List.mem_flatMap, List.mem_map] at hp ⊢
    obtain ⟨d1, hd1, d2, hd2, a, ha, b, hb, hab⟩ := hp
    exact ⟨d1, take_subset_take order count (count + 1) (Nat.le_succ count) hd1,
      d2, take_subset_take order count (count + 1) (Nat.le_succ count) hd2,
      a, ha, b, hb, hab⟩
  · intro h
    simp only [searchPasses, h, if_true]

/-- Witness for the amended C6 theorem at a concrete positive seed. -/
theorem expandingDecadeSearch_order_widen_stop_witness :
    (0 : ℚ) < 1 ∧
      (sortedDecades buildCapacitorValues none = potDecades ∧
        (sortedDecades [] none).Sorted (· ≤ ·) ∧
        (sortedDecades [] (some 1)).Sorted (distRel (Int.log 10 (1 : ℚ))) ∧
        (((1 : ℚ), (1 : ℚ)) ∈ pairsForCount [] [] 0 →
          ((1 : ℚ), (1 : ℚ)) ∈ pairsForCount [] [] 1) ∧
        ((runPairs 1 1 1 (pairsForCount [] [] 0) ⟨none, none⟩).bestWithin.isSome →
          searchPasses 1 1 1 [] [] 1 0 ⟨none, none⟩ =
            runPairs 1 1 1 (pairsForCount [] [] 0) ⟨none, none⟩)) :=
  ⟨by norm_num,
    expandingDecadeSearch_order_widen_stop 1 (by norm_num) [] [] 0 0 1 1 1
      ⟨none, none⟩ (1, 1)⟩

end SklpEqualPot
